import Mathlib

/-!
The ports flag parser, the template loader, the template function and the driver of
`main.go` (k8s_defgen).

A shallow embedding of `portValuesList.Set`, `parseTemplates`, `firstRune` and `main`,
together with the standard-library functions they call (`strings.Split`,
`strings.SplitN`, `strings.Index`, `strings.Count`, `strings.Replace`,
`strings.HasPrefix`, `strconv.ParseUint`, `filepath.Base`, `bufio.Reader.ReadString`,
`fmt.Sprintf`, `flag.Parse`, `utf8.DecodeRuneInString` and the conversions between
strings and runes).

Go strings are represented by the list of their Unicode code points (`List Char`),
i.e. the development speaks about strings that are valid UTF-8 text.  Every
delimiter the program looks for (`,` `:` `/` `%` `_` newline, `.tmpl`, `///`) is ASCII,
so on such strings the byte-oriented library functions cut at the same places as
their code-point counterparts below.  Only `firstRune` looks inside the encoding: it is
modelled on byte strings (`ByteString`), valid UTF-8 or not.  Unsigned machine integers
are natural numbers with explicit reduction modulo `2 ^ 16`, `2 ^ 64` or `256`.
-/

namespace K8sDefgen

/-- A Go string: the list of its code points. -/
abbrev GoString := List Char

/-! ## Package `strings` -/

/-- Go `strings.HasPrefix(s, p)`. -/
def HasPrefix (s p : GoString) : Bool := p.isPrefixOf s

/-- Go `strings.Index(s, substr)`: the position of the first occurrence of `substr`
in `s`; `none` stands for the result `-1` (no occurrence). -/
def Index : GoString → GoString → Option Nat
  | [], substr => if substr = [] then some 0 else none
  | c :: cs, substr =>
    if substr.isPrefixOf (c :: cs) then some 0
    else (Index cs substr).map (· + 1)

/-- The counting loop of `strings.Count` for a non-empty `substr`: find the next
occurrence, count it, continue after it.  The first argument bounds the number of
iterations; `Count` passes `len(s)`, which the loop cannot exceed because every
iteration consumes at least one character. -/
def countLoop (substr : GoString) : Nat → GoString → Nat
  | 0, _ => 0
  | fuel + 1, s =>
    match Index s substr with
    | none => 0
    | some i => countLoop substr fuel (s.drop (i + substr.length)) + 1

/-- Go `strings.Count(s, substr)`: the number of non-overlapping occurrences of
`substr` in `s`; for an empty `substr` it is the number of code points plus one. -/
def Count (s substr : GoString) : Nat :=
  if substr = [] then s.length + 1 else countLoop substr s.length s

/-- The helper `explode` of package `strings`: split `s` into its code points, at
most `n` pieces (all of them when `n < 0`), the last piece holding the remainder. -/
def explode (s : GoString) (n : Int) : List GoString :=
  let l := s.length
  let k : Nat := if n < 0 ∨ (l : Int) < n then l else n.toNat
  if k = 0 then []
  else (s.take (k - 1)).map (fun c => [c]) ++ [s.drop (k - 1)]

/-- The main loop of `genSplit` (with `sepSave = 0`): `k` is the number of cuts
still allowed (`n - 1 - i` in the source).  Each round cuts at the first occurrence
of `sep`; the loop stops when no cut is allowed or no separator is left, and the
rest of the string is the last piece. -/
def splitLoop (sep : GoString) : Nat → GoString → List GoString
  | 0, s => [s]
  | k + 1, s =>
    match Index s sep with
    | none => [s]
    | some m => s.take m :: splitLoop sep k (s.drop (m + sep.length))

/-- The function `genSplit(s, sep, 0, n)` of package `strings`. -/
def genSplit (s sep : GoString) (n : Int) : List GoString :=
  if n = 0 then []
  else if sep = [] then explode s n
  else
    let n1 : Nat := if n < 0 then Count s sep + 1 else n.toNat
    let n2 : Nat := if n1 > s.length + 1 then s.length + 1 else n1
    splitLoop sep (n2 - 1) s

/-- Go `strings.Split(s, sep)`. -/
def Split (s sep : GoString) : List GoString := genSplit s sep (-1)

/-- Go `strings.SplitN(s, sep, n)`. -/
def SplitN (s sep : GoString) (n : Int) : List GoString := genSplit s sep n

/-- The replacement loop of `strings.Replace` for an empty `old`: the replacement has
already been written once at the start, and is written again after each of the next
`k` code points. -/
def replaceEmptyLoop (new : GoString) : Nat → GoString → GoString
  | 0, s => s
  | _ + 1, [] => []
  | k + 1, c :: cs => c :: (new ++ replaceEmptyLoop new k cs)

/-- The replacement loop of `strings.Replace` for a non-empty `old`: `k` replacements
are still to be made, each at the first occurrence of `old` in what is left of the
string.  `Replace` never asks for more replacements than there are occurrences. -/
def replaceLoop (old new : GoString) : Nat → GoString → GoString
  | 0, s => s
  | k + 1, s =>
    match Index s old with
    | none => s
    | some j => s.take j ++ (new ++ replaceLoop old new k (s.drop (j + old.length)))

/-- Go `strings.Replace(s, old, new, n)`: the first `n` non-overlapping occurrences of
`old` replaced by `new`, all of them when `n < 0`. -/
def Replace (s old new : GoString) (n : Int) : GoString :=
  if old = new ∨ n = 0 then s
  else
    let m := Count s old
    if m = 0 then s
    else
      let k : Nat := if n < 0 ∨ (m : Int) < n then m else n.toNat
      if old = [] then new ++ replaceEmptyLoop new (k - 1) s
      else replaceLoop old new k s

/-! ## Package `strconv` -/

/-- The sentinel errors wrapped by a `strconv.NumError`. -/
inductive NumErrKind where
  | ErrSyntax
  | ErrRange
  | ErrBitSize
  deriving DecidableEq, Repr

/-- Go `strconv.NumError`: the failing function, the input, and the reason. -/
structure NumError where
  Func : GoString
  Num : GoString
  Err : NumErrKind
  deriving DecidableEq, Repr

/-- The helper `syntaxError` of package `strconv`. -/
def syntaxError (fn str : GoString) : NumError := ⟨fn, str, .ErrSyntax⟩

/-- The helper `rangeError` of package `strconv`. -/
def rangeError (fn str : GoString) : NumError := ⟨fn, str, .ErrRange⟩

/-- The helper `bitSizeError` of package `strconv`. -/
def bitSizeError (fn str : GoString) : NumError := ⟨fn, str, .ErrBitSize⟩

/-- The name `strconv.ParseUint` reports in its errors. -/
def fnParseUint : GoString := "ParseUint".toList

/-- The constant `maxUint64`. -/
def maxUint64 : Nat := 2 ^ 64 - 1

/-- The helper `lower` of package `strconv`: `c | 0x20`. -/
def lower (c : Char) : Nat := c.toNat ||| 0x20

/-- The digit loop of `strconv.ParseUint` in base 10.  `s0` is the whole input (for
the error value), `maxVal` the largest value of the requested bit size, `n` the
`uint64` accumulator. -/
def parseUintLoop (s0 : GoString) (maxVal : Nat) : GoString → Nat → Except NumError Nat
  | [], n => .ok n
  | c :: cs, n =>
    let d? : Option Nat :=
      if '0' ≤ c ∧ c ≤ '9' then some (c.toNat - '0'.toNat)
      else if 'a'.toNat ≤ lower c ∧ lower c ≤ 'z'.toNat then some (lower c - 'a'.toNat + 10)
      else none
    match d? with
    | none => .error (syntaxError fnParseUint s0)
    | some d =>
      if d ≥ 10 then .error (syntaxError fnParseUint s0)
      else if n ≥ maxUint64 / 10 + 1 then .error (rangeError fnParseUint s0)
      else
        let n10 := (n * 10) % 2 ^ 64
        let n1 := (n10 + d) % 2 ^ 64
        if n1 < n10 ∨ n1 > maxVal then .error (rangeError fnParseUint s0)
        else parseUintLoop s0 maxVal cs n1

/-- Go `strconv.ParseUint(s, 10, bitSize)`, the base being fixed to 10 as at both
call sites.  The value returned next to an error is dropped: the caller ignores it. -/
def ParseUint (s : GoString) (bitSize : Nat) : Except NumError Nat :=
  if s = [] then .error (syntaxError fnParseUint s)
  else if bitSize > 64 then .error (bitSizeError fnParseUint s)
  else
    let bits := if bitSize = 0 then 64 else bitSize
    parseUintLoop s (2 ^ bits - 1) s 0

/-! ## The ports flag: `portValuesList.Set` -/

/-- The record `portValues`; the two `uint16` fields are naturals below `2 ^ 16`. -/
structure portValues where
  Port : Nat
  TargetPort : Nat
  Protocol : GoString
  deriving DecidableEq, Repr

/-- The accumulator `portValuesList`. -/
structure portValuesList where
  ports : List portValues
  deriving DecidableEq, Repr

/-- The body of the loop of `portValuesList.Set` for one comma-separated entry
`val`: the mapping to append, or the error returned.  `info[0]` is always in range,
`SplitN` with a non-empty separator and `n = 3` never returning an empty slice. -/
def portValuesList.Set.entry (val : GoString) : Except NumError portValues :=
  let info := SplitN val ":".toList 3
  match ParseUint (info.getD 0 []) 16 with
  | .error err => .error err
  | .ok v =>
    let port : portValues := ⟨v % 2 ^ 16, 0, []⟩
    match info.length with
    | 1 => .ok { port with TargetPort := port.Port }
    | 2 =>
      match ParseUint (info.getD 1 []) 16 with
      | .error err => .error err
      | .ok v => .ok { port with TargetPort := v % 2 ^ 16, Protocol := "TCP".toList }
    | 3 =>
      match ParseUint (info.getD 1 []) 16 with
      | .error err => .error err
      | .ok v => .ok { port with TargetPort := v % 2 ^ 16, Protocol := info.getD 2 [] }
    | _ => .ok port

/-- The loop `for _, val := range values` of `portValuesList.Set`: the slice
accumulated so far is threaded through, and an error stops the loop at once, the
mappings appended before it staying in place. -/
def portValuesList.Set.loop : List GoString → List portValues → List portValues × Option NumError
  | [], ports => (ports, none)
  | val :: rest, ports =>
    match portValuesList.Set.entry val with
    | .error err => (ports, some err)
    | .ok port => portValuesList.Set.loop rest (ports ++ [port])

/-- The method `(pvl *portValuesList) Set(value string) error`: the receiver after
the call, and the error returned (`none` for `nil`). -/
def portValuesList.Set (pvl : portValuesList) (value : GoString) : portValuesList × Option NumError :=
  let r := portValuesList.Set.loop (Split value ",".toList) pvl.ports
  (⟨r.1⟩, r.2)

/-! ## Package `path/filepath` (Unix) -/

/-- Go `filepath.Base(path)` with separator `/` and no volume names: the last element
of the path, trailing slashes removed first; `.` for the empty path and `/` for a path
made of slashes only. -/
def Base (path : GoString) : GoString :=
  if path = [] then ".".toList
  else
    let stripped := (path.reverse.dropWhile (fun c => c = '/')).reverse
    let last := (stripped.reverse.takeWhile (fun c => c ≠ '/')).reverse
    if last = [] then "/".toList else last

/-! ## Package `bufio` -/

/-- Go `(*bufio.Reader).ReadString(delim)` on a reader whose unread input is the first
argument: the string read (the delimiter included when found), the input left unread,
and whether the delimiter was found.  When it is not, Go returns what was read together
with the error `io.EOF`. -/
def ReadString : GoString → Char → GoString × GoString × Bool
  | [], _ => ([], [], false)
  | c :: cs, delim =>
    if c = delim then ([c], cs, true)
    else
      let r := ReadString cs delim
      (c :: r.1, r.2.1, r.2.2)

/-! ## Package `fmt` -/

/-- The text `fmt` appends for operands no verb has consumed, all operands being
strings: `%!(EXTRA string=a, string=b)`; nothing when no operand is left. -/
def extraString (args : List GoString) : GoString :=
  if args = [] then []
  else "%!(EXTRA ".toList ++
    (", ".toList).intercalate (args.map (fun a => "string=".toList ++ a)) ++ ")".toList

/-- Go `fmt.Sprintf(format, args...)` for string operands, on the fragment of format
strings made of plain text, `%%`, `%s` and `%v`, without flags, width, precision or
argument index: a verb takes the next operand, `%!s(MISSING)` stands for a verb with no
operand left, a lone final `%` gives `%!(NOVERB)`, and unused operands are reported at
the end.  The result is `none` on every other directive: it lies outside the fragment
modelled here. -/
def Sprintf : GoString → List GoString → Option GoString
  | [], args => some (extraString args)
  | c :: rest, args =>
    if c ≠ '%' then (Sprintf rest args).map (fun out => c :: out)
    else
      match rest with
      | [] => some ("%!(NOVERB)".toList ++ extraString args)
      | verb :: rest1 =>
        if verb = '%' then (Sprintf rest1 args).map (fun out => '%' :: out)
        else if verb = 's' ∨ verb = 'v' then
          match args with
          | [] => (Sprintf rest1 []).map (fun out => "%!".toList ++ verb :: "(MISSING)".toList ++ out)
          | a :: args1 => (Sprintf rest1 args1).map (fun out => a ++ out)
        else none

/-! ## The template loader: `parseTemplates` -/

/-- The record `templateFile`; `T` is the type of parsed templates
(`*template.Template`). -/
structure templateFile (T : Type) where
  outFilename : GoString
  tmpl : T
  deriving DecidableEq, Repr

/-- What `check` panics with inside `parseTemplates`, and the run-time panic of an
out-of-range slice expression. `E` is the type of template parse errors. -/
inductive Panic (E : Type) where
  | openError (fp : GoString)
  | EOF
  | parseError (e : E)
  | sliceBounds
  deriving DecidableEq, Repr

/-- The outcome of a run of `parseTemplates`: a normal return, a panic, or a format
directive outside the modelled fragment of `fmt.Sprintf`. -/
inductive Outcome (E α : Type) where
  | ok (a : α)
  | panic (p : Panic E)
  | unmodelled
  deriving DecidableEq, Repr

/-- The end of the loop body of `parseTemplates`: `ioutil.ReadAll(reader)` returns the
unread input `body`, which is parsed as the template named `fp`. -/
def parseTemplates.parseBody {E T : Type} (Parse : GoString → GoString → Except E T)
    (fp outFilename body : GoString) : Outcome E (templateFile T) :=
  match Parse fp body with
  | .error e => .panic (.parseError e)
  | .ok t => .ok ⟨outFilename, t⟩

/-- The body of the loop of `parseTemplates` for the path `fp`.  `fs` gives the content
of the files that can be opened, `Parse name text` stands for
`template.New(name).Funcs(funcMap).Parse(text)`, and `Name` is `templateValues.Name`.
Reading an opened file never fails, except by reaching its end. -/
def parseTemplates.file {E T : Type} (fs : GoString → Option GoString)
    (Parse : GoString → GoString → Except E T) (Name : GoString) (fp : GoString) :
    Outcome E (templateFile T) :=
  let outFilename := Replace (Base fp) ".tmpl".toList [] 1
  match fs fp with
  | none => .panic (.openError fp)
  | some content =>
    let r := ReadString content '\n'
    let firstLine := r.1
    if r.2.2 = false then .panic .EOF
    else if HasPrefix firstLine "///".toList = false then
      parseTemplates.parseBody Parse fp outFilename content
    else
      let hi : Int := (firstLine.length : Int) - 1
      if 3 ≤ hi ∧ hi ≤ (firstLine.length : Int) then
        match Sprintf ((firstLine.take hi.toNat).drop 3) [Name] with
        | none => .unmodelled
        | some name => parseTemplates.parseBody Parse fp name r.2.1
      else .panic .sliceBounds

/-- The loop `for _, fp := range filepaths` of `parseTemplates`, with the slice `files`
built so far. -/
def parseTemplates.loop {E T : Type} (fs : GoString → Option GoString)
    (Parse : GoString → GoString → Except E T) (Name : GoString) :
    List GoString → List (templateFile T) → Outcome E (List (templateFile T))
  | [], files => .ok files
  | fp :: fps, files =>
    match parseTemplates.file fs Parse Name fp with
    | .ok tf => parseTemplates.loop fs Parse Name fps (files ++ [tf])
    | .panic p => .panic p
    | .unmodelled => .unmodelled

/-- The function `parseTemplates(filepaths ...string)`; the error it returns next to the
slice is always `nil` and is left out. -/
def parseTemplates {E T : Type} (fs : GoString → Option GoString)
    (Parse : GoString → GoString → Except E T) (Name : GoString)
    (filepaths : List GoString) : Outcome E (List (templateFile T)) :=
  parseTemplates.loop fs Parse Name filepaths []

/-! ## Decimal numerals, as the specification words them -/

/-- A decimal digit, `0` to `9`. -/
def isDecDigit (c : Char) : Prop := '0' ≤ c ∧ c ≤ '9'

instance (c : Char) : Decidable (isDecDigit c) := by unfold isDecDigit; infer_instance

/-- The value of a string of decimal digits read from accumulator `n`. -/
def decimalFrom (n : Nat) (s : GoString) : Nat :=
  s.foldl (fun acc c => 10 * acc + (c.toNat - '0'.toNat)) n

/-- The value of a string of decimal digits. -/
def decimalValue (s : GoString) : Nat := decimalFrom 0 s

/-- A non-empty string of decimal digits whose value is at most 65535: what the
specification calls a field that parses as an unsigned 16-bit integer. -/
def isUint16Decimal (s : GoString) : Prop :=
  s ≠ [] ∧ (∀ c ∈ s, isDecDigit c) ∧ decimalValue s ≤ 65535

instance (s : GoString) : Decidable (isUint16Decimal s) := by
  unfold isUint16Decimal; infer_instance

/-- The condition the specification puts on one comma-separated entry: among its
colon-separated fields, field 0, and field 1 when there are two or more fields, is a
non-empty string of decimal digits of value at most 65535. -/
def entryNumbersOK (e : GoString) : Prop :=
  isUint16Decimal ((Split e ":".toList).getD 0 []) ∧
    (2 ≤ (Split e ":".toList).length → isUint16Decimal ((Split e ":".toList).getD 1 []))

instance (e : GoString) : Decidable (entryNumbersOK e) := by
  unfold entryNumbersOK; infer_instance

/-! ## The program: `main` -/

/-- The constant `requiredArg`, the default value of the required string flags. -/
def requiredArg : GoString := "\x7bREQUIRED\x7d".toList

/-- The variable `templateValues`, the render context. -/
structure templateValues where
  Cluster : GoString
  ClusterProvider : GoString
  ClusterZone : GoString
  Namespace : GoString
  Image : GoString
  Name : GoString
  Ports : List portValues
  deriving DecidableEq, Repr

/-- The five flags `main` defines: `cluster`, `namespace`, `name`, `img`, `ports`. -/
inductive FlagName where
  | Cluster
  | Namespace
  | Name
  | Img
  | Ports
  deriving DecidableEq, Repr

/-- The command line as package `flag` reads it: the occurrences of the defined flags,
in order, each with its value, and the positional arguments left for `flag.Args()`.
Undefined flags, a flag without its value and `-h`, on which `flag.Parse` exits by
itself, are not represented. -/
structure CommandLine where
  flags : List (FlagName × GoString)
  args : List GoString
  deriving DecidableEq, Repr

/-- The variables bound to the flags: the string fields of `templateValues` and the
local `ports`. -/
structure FlagVars where
  values : templateValues
  ports : portValuesList
  deriving DecidableEq, Repr

/-- The flag variables before `flag.Parse`: the defaults given to `flag.StringVar`, and
an empty `portValuesList`. -/
def FlagVars.defaults : FlagVars :=
  ⟨⟨requiredArg, [], [], requiredArg, [], requiredArg, []⟩, ⟨[]⟩⟩

/-- One flag occurrence handled by `flag.Parse`: a string flag stores its value, the
`ports` flag calls `portValuesList.Set`, whose error makes `flag.Parse` fail. -/
def FlagVars.set (vars : FlagVars) (name : FlagName) (value : GoString) :
    Except NumError FlagVars :=
  match name with
  | .Cluster => .ok { vars with values := { vars.values with Cluster := value } }
  | .Namespace => .ok { vars with values := { vars.values with Namespace := value } }
  | .Name => .ok { vars with values := { vars.values with Name := value } }
  | .Img => .ok { vars with values := { vars.values with Image := value } }
  | .Ports =>
    match vars.ports.Set value with
    | (pvl, none) => .ok { vars with ports := pvl }
    | (_, some err) => .error err

/-- Go `flag.Parse()` over the flag occurrences of the command line, in order; it stops
at the first value a flag rejects. -/
def flagParse : List (FlagName × GoString) → FlagVars → Except NumError FlagVars
  | [], vars => .ok vars
  | (name, value) :: rest, vars =>
    match vars.set name value with
    | .error err => .error err
    | .ok vars1 => flagParse rest vars1

/-- A run-time panic of an index expression, `index out of range [index] with length
len`. -/
inductive RuntimePanic where
  | indexOutOfRange (index len : Nat)
  deriving DecidableEq, Repr

/-- How a run of `main` ends before it writes anything, or what it starts writing:
`flagError`, package `flag` rejects a flag value and exits with status 2;
`runtimePanic`, an index expression of `main` panics; `fatal`, the run ends in
`log.Fatal(msg)`; `templatePanic`, a `check` inside `parseTemplates` panics;
`unmodelled`, a format directive outside the modelled fragment of `fmt.Sprintf` was met;
`generate`, the run reaches the generation loop with this render context, output
directory and list of parsed templates. -/
inductive MainOutcome (E T : Type) where
  | flagError (err : NumError)
  | runtimePanic (p : RuntimePanic)
  | fatal (msg : GoString)
  | templatePanic (p : Panic E)
  | unmodelled
  | generate (values : templateValues) (outDir : GoString) (tmpls : List (templateFile T))
  deriving DecidableEq, Repr

/-- Lines 136 to 139 of `main`: the ports are copied into `templateValues`, the cluster
is cut by `strings.SplitN(cluster, "_", 2)`, and the two pieces are read by the index
expressions `clusterInfo[0]` and `clusterInfo[1]`. -/
def main.clusterInfo (vars : FlagVars) : Except RuntimePanic templateValues :=
  let values := { vars.values with Ports := vars.ports.ports }
  match SplitN values.Cluster "_".toList 2 with
  | [] => .error (.indexOutOfRange 0 0)
  | [_] => .error (.indexOutOfRange 1 1)
  | provider :: zone :: _ =>
    .ok { values with ClusterProvider := provider, ClusterZone := zone }

/-- Lines 141 to 155 of `main`: the two checks that end in `log.Fatal`, the call of
`parseTemplates`, and the output directory. -/
def main.prepare {E T : Type} (fs : GoString → Option GoString)
    (Parse : GoString → GoString → Except E T) (values : templateValues)
    (args : List GoString) : MainOutcome E T :=
  if values.Cluster = requiredArg ∨ values.Namespace = requiredArg then
    .fatal "Missing required parameter".toList
  else if args.length = 0 then .fatal "Missing template file(s)".toList
  else
    match parseTemplates fs Parse values.Name args with
    | .panic p => .templatePanic p
    | .unmodelled => .unmodelled
    | .ok tmpls =>
      .generate values
        ("gen/".toList ++ values.Cluster ++ "/".toList ++ values.Namespace ++ "/".toList ++
          values.Name ++ "/".toList)
        tmpls

/-- The function `main`, up to the generation loop: flag parsing, the cluster pieces,
the required-argument checks, template parsing and the output directory.  The loop that
follows removes, creates and writes one file per parsed template. -/
def main {E T : Type} (fs : GoString → Option GoString)
    (Parse : GoString → GoString → Except E T) (cl : CommandLine) : MainOutcome E T :=
  match flagParse cl.flags FlagVars.defaults with
  | .error err => .flagError err
  | .ok vars =>
    match main.clusterInfo vars with
    | .error p => .runtimePanic p
    | .ok values => main.prepare fs Parse values cl.args

/-! ## Package `unicode/utf8` and the conversions between strings and runes -/

/-- A Go string as the sequence of its bytes, each below 256; this is the view needed
where the program converts between strings and runes. -/
abbrev ByteString := List Nat

/-- The constant `utf8.RuneError`, U+FFFD. -/
def RuneError : Nat := 0xFFFD

/-- The table `first` of package `unicode/utf8`, information about the first byte of
a UTF-8 sequence: `0xF0` (`as`) for ASCII, `0xF1` (`xx`) for an invalid first byte,
otherwise the size of the sequence in the low bits and the index of the accepted range
of the second byte in the high bits. -/
def first (b : Nat) : Nat :=
  if b < 0x80 then 0xF0
  else if b < 0xC2 then 0xF1
  else if b < 0xE0 then 0x02
  else if b = 0xE0 then 0x13
  else if b < 0xED then 0x03
  else if b = 0xED then 0x23
  else if b < 0xF0 then 0x03
  else if b = 0xF0 then 0x34
  else if b < 0xF4 then 0x04
  else if b = 0xF4 then 0x44
  else 0xF1

/-- The table `acceptRanges` of package `unicode/utf8`: the bounds `lo`, `hi` of the
second byte; the entries after the fifth are zero. -/
def acceptRanges (i : Nat) : Nat × Nat :=
  match i with
  | 0 => (0x80, 0xBF)
  | 1 => (0xA0, 0xBF)
  | 2 => (0x80, 0x9F)
  | 3 => (0x90, 0xBF)
  | 4 => (0x80, 0x8F)
  | _ => (0, 0)

/-- Go `utf8.DecodeRuneInString(s)`: the first rune of `s` and its width in bytes;
`(RuneError, 0)` for the empty string and `(RuneError, 1)` for an invalid encoding.
In the branch of ASCII and invalid first bytes the source selects between the byte and
`RuneError` with a mask built from the lowest bit of the table entry. -/
def DecodeRuneInString (s : ByteString) : Nat × Nat :=
  match s with
  | [] => (RuneError, 0)
  | s0 :: _ =>
    let x := first s0
    if x ≥ 0xF0 then (if x % 2 = 0 then s0 else RuneError, 1)
    else
      let sz := x &&& 7
      let accept := acceptRanges (x >>> 4)
      if s.length < sz then (RuneError, 1)
      else
        let s1 := s.getD 1 0
        if s1 < accept.1 ∨ accept.2 < s1 then (RuneError, 1)
        else if sz ≤ 2 then (((s0 &&& 0x1F) <<< 6) ||| (s1 &&& 0x3F), 2)
        else
          let s2 := s.getD 2 0
          if s2 < 0x80 ∨ 0xBF < s2 then (RuneError, 1)
          else if sz ≤ 3 then
            (((s0 &&& 0x0F) <<< 12) ||| ((s1 &&& 0x3F) <<< 6) ||| (s2 &&& 0x3F), 3)
          else
            let s3 := s.getD 3 0
            if s3 < 0x80 ∨ 0xBF < s3 then (RuneError, 1)
            else
              (((s0 &&& 0x07) <<< 18) ||| ((s1 &&& 0x3F) <<< 12) ||| ((s2 &&& 0x3F) <<< 6) |||
                (s3 &&& 0x3F), 4)

/-- The three-byte case of `encoderune`. -/
def encodeRune3 (r : Nat) : ByteString :=
  [0xE0 ||| (r >>> 12) % 256, 0x80 ||| ((r >>> 6) % 256 &&& 0x3F), 0x80 ||| (r % 256 &&& 0x3F)]

/-- The function `encoderune` behind the conversion `string(r)` of a rune, `r` being
the rune read as a `uint32`: the UTF-8 encoding of `r`, that of `RuneError` for a
surrogate or a value above `0x10FFFF`. -/
def encodeRune (r : Nat) : ByteString :=
  if r ≤ 0x7F then [r % 256]
  else if r ≤ 0x7FF then [0xC0 ||| (r >>> 6) % 256, 0x80 ||| (r % 256 &&& 0x3F)]
  else if r > 0x10FFFF ∨ (0xD800 ≤ r ∧ r ≤ 0xDFFF) then encodeRune3 RuneError
  else if r ≤ 0xFFFF then encodeRune3 r
  else
    [0xF0 ||| (r >>> 18) % 256, 0x80 ||| ((r >>> 12) % 256 &&& 0x3F),
      0x80 ||| ((r >>> 6) % 256 &&& 0x3F), 0x80 ||| (r % 256 &&& 0x3F)]

/-- The loop of the conversion `[]rune(s)`: decode a rune, step over its bytes (one byte
after an invalid encoding), until the string is exhausted.  The first argument bounds
the number of runes; the conversion passes `len(s)`, every rune taking at least one
byte. -/
def runesLoop : Nat → ByteString → List Nat
  | 0, _ => []
  | _ + 1, [] => []
  | fuel + 1, b :: bs =>
    let d := DecodeRuneInString (b :: bs)
    d.1 :: runesLoop fuel ((b :: bs).drop d.2)

/-- The conversion `[]rune(s)`. -/
def stringToRunes (s : ByteString) : List Nat := runesLoop s.length s

/-- The template function `firstRune` of `funcMap`: `string([]rune(s)[0])`, or the
run-time panic of the index expression. -/
def firstRune (s : ByteString) : Except RuntimePanic ByteString :=
  match stringToRunes s with
  | [] => .error (.indexOutOfRange 0 0)
  | r :: _ => .ok (encodeRune r)

/-- The bytes of a text: the UTF-8 encoding of its code points, one after the other. -/
def utf8Bytes (s : GoString) : ByteString := s.flatMap (fun c => encodeRune c.toNat)

/-! ## Splitting at a one-character separator -/

theorem Index_single_of_not_mem (c : Char) (s : GoString) (h : c ∉ s) :
    Index s [c] = none := by
  induction s with
  | nil => simp [Index]
  | cons x xs ih =>
    have hx : c ≠ x := fun e => h (e ▸ List.mem_cons_self _ _)
    have hxs : c ∉ xs := fun m => h (List.mem_cons_of_mem _ m)
    simp [Index, List.isPrefixOf, hx, ih hxs]

theorem Index_single_append (c : Char) (a r : GoString) (h : c ∉ a) :
    Index (a ++ c :: r) [c] = some a.length := by
  induction a with
  | nil => simp [Index, List.isPrefixOf]
  | cons x xs ih =>
    have hx : c ≠ x := fun e => h (e ▸ List.mem_cons_self _ _)
    have hxs : c ∉ xs := fun m => h (List.mem_cons_of_mem _ m)
    simp [Index, List.isPrefixOf, hx, ih hxs]

theorem splitLoop_of_not_mem (c : Char) (k : Nat) (s : GoString) (h : c ∉ s) :
    splitLoop [c] k s = [s] := by
  cases k with
  | zero => rfl
  | succ k => simp [splitLoop, Index_single_of_not_mem c s h]

theorem splitLoop_succ_append (c : Char) (k : Nat) (a r : GoString) (h : c ∉ a) :
    splitLoop [c] (k + 1) (a ++ c :: r) = a :: splitLoop [c] k r := by
  simp [splitLoop, Index_single_append c a r h]

theorem count_append_cons_of_not_mem (c : Char) (a r : GoString) (h : c ∉ a) :
    (a ++ c :: r).count c = r.count c + 1 := by
  simp [List.count_append, List.count_eq_zero_of_not_mem h]

theorem splitLoop_stable (c : Char) (k : Nat) :
    ∀ s : GoString, s.count c ≤ k → splitLoop [c] k s = splitLoop [c] (s.count c) s := by
  induction k with
  | zero =>
    intro s hs
    have : s.count c = 0 := Nat.le_zero.mp hs
    rw [this]
  | succ k ih =>
    intro s hs
    by_cases hc : c ∈ s
    · obtain ⟨a, r, rfl, ha⟩ := List.eq_append_cons_of_mem hc
      rw [count_append_cons_of_not_mem c a r ha] at hs ⊢
      rw [splitLoop_succ_append c k a r ha, splitLoop_succ_append c _ a r ha,
        ih r (Nat.le_of_succ_le_succ hs)]
    · rw [splitLoop_of_not_mem c _ s hc, splitLoop_of_not_mem c _ s hc]

theorem countLoop_single (c : Char) (fuel : Nat) :
    ∀ s : GoString, s.length ≤ fuel → countLoop [c] fuel s = s.count c := by
  induction fuel with
  | zero =>
    intro s hs
    have : s = [] := List.length_eq_zero.mp (Nat.le_zero.mp hs)
    subst this
    rfl
  | succ fuel ih =>
    intro s hs
    by_cases hc : c ∈ s
    · obtain ⟨a, r, rfl, ha⟩ := List.eq_append_cons_of_mem hc
      have hr : r.length ≤ fuel := by
        simp only [List.length_append, List.length_cons] at hs
        omega
      simp [countLoop, Index_single_append c a r ha, ih r hr,
        count_append_cons_of_not_mem c a r ha]
    · simp [countLoop, Index_single_of_not_mem c s hc, List.count_eq_zero_of_not_mem hc]

theorem Count_single (c : Char) (s : GoString) : Count s [c] = s.count c := by
  simp [Count, countLoop_single c s.length s (Nat.le_refl _)]

/-- Go `strings.Split` at a one-character separator runs the cutting loop once per
occurrence of the separator. -/
theorem Split_single (c : Char) (s : GoString) :
    Split s [c] = splitLoop [c] (s.count c) s := by
  have hlen : s.count c ≤ s.length := List.count_le_length _ _
  simp only [Split, genSplit, Count_single]
  simp
  rw [if_neg (by omega)]
  simp

theorem Split_of_not_mem (c : Char) (s : GoString) (h : c ∉ s) : Split s [c] = [s] := by
  rw [Split_single, splitLoop_of_not_mem c _ s h]

theorem Split_append_cons (c : Char) (a r : GoString) (h : c ∉ a) :
    Split (a ++ c :: r) [c] = a :: Split r [c] := by
  rw [Split_single, Split_single, count_append_cons_of_not_mem c a r h,
    splitLoop_succ_append c _ a r h]

theorem Split_ne_nil (c : Char) (s : GoString) : Split s [c] ≠ [] := by
  by_cases hc : c ∈ s
  · obtain ⟨a, r, rfl, ha⟩ := List.eq_append_cons_of_mem hc
    simp [Split_append_cons c a r ha]
  · simp [Split_of_not_mem c s hc]

/-- Splitting `a ++ sep ++ b` gives the pieces of `a` followed by the pieces of `b`. -/
theorem Split_append_sep (c : Char) (b : GoString) :
    ∀ a : GoString, Split (a ++ c :: b) [c] = Split a [c] ++ Split b [c] := by
  intro a
  generalize hn : a.length = n
  induction n using Nat.strong_induction_on generalizing a with
  | _ n ih =>
    by_cases hc : c ∈ a
    · obtain ⟨a1, a2, rfl, h1⟩ := List.eq_append_cons_of_mem hc
      have hlt : a2.length < n := by
        rw [← hn]; simp only [List.length_append, List.length_cons]; omega
      rw [List.append_assoc, List.cons_append, Split_append_cons c a1 _ h1,
        Split_append_cons c a1 a2 h1, ih _ hlt a2 rfl, List.cons_append]
    · rw [Split_append_cons c a b hc, Split_of_not_mem c a hc, List.singleton_append]

theorem splitLoop_ne_nil (sep : GoString) (k : Nat) (s : GoString) : splitLoop sep k s ≠ [] := by
  cases k with
  | zero => simp [splitLoop]
  | succ k =>
    simp only [splitLoop]
    cases Index s sep <;> simp

/-- With a non-empty separator `strings.SplitN(s, sep, 3)` never returns an empty slice:
the index expression `info[0]` of `Set` is always in range. -/
theorem SplitN_three_ne_nil (s sep : GoString) (hsep : sep ≠ []) : SplitN s sep 3 ≠ [] := by
  have h3 : ((3 : Int) = 0) = False := by decide
  simp only [SplitN, genSplit, h3, if_false, if_neg hsep]
  exact splitLoop_ne_nil _ _ _

/-- Go `strings.SplitN(s, sep, 3)` at a one-character separator makes at most two
cuts. -/
theorem SplitN_three (c : Char) (s : GoString) : SplitN s [c] 3 = splitLoop [c] 2 s := by
  have h3 : ((3 : Int) = 0) = False := by decide
  have h3n : ((3 : Int) < 0) = False := by decide
  simp only [SplitN, genSplit, h3, h3n, if_false]
  simp only [List.cons_ne_nil, if_false]
  have ht : (3 : Int).toNat = 3 := rfl
  rw [ht]
  by_cases hl : 3 > s.length + 1
  · rw [if_pos hl, Nat.add_sub_cancel]
    have hcl : s.count c ≤ s.length := List.count_le_length _ _
    rw [splitLoop_stable c s.length s hcl, splitLoop_stable c 2 s (by omega)]
  · rw [if_neg hl]

/-! ## `strconv.ParseUint` against decimal numerals -/

theorem isDecDigit_iff (c : Char) : isDecDigit c ↔ 48 ≤ c.toNat ∧ c.toNat ≤ 57 := by
  unfold isDecDigit
  exact Iff.rfl

theorem parseUintLoop_nondigit (s0 : GoString) (m : Nat) (c : Char) (cs : GoString) (n : Nat)
    (h : ¬ isDecDigit c) :
    parseUintLoop s0 m (c :: cs) n = .error (syntaxError fnParseUint s0) := by
  have h1 : ¬ ('0' ≤ c ∧ c ≤ '9') := h
  simp only [parseUintLoop, if_neg h1]
  by_cases hl : 'a'.toNat ≤ lower c ∧ lower c ≤ 'z'.toNat
  · have : lower c - 'a'.toNat + 10 ≥ 10 := Nat.le_add_left _ _
    simp only [if_pos hl, if_pos this]
  · simp only [if_neg hl]

theorem parseUintLoop_digit (s0 : GoString) (c : Char) (cs : GoString) (n : Nat)
    (h : isDecDigit c) (hn : n ≤ 65535) :
    parseUintLoop s0 65535 (c :: cs) n =
      if 10 * n + (c.toNat - '0'.toNat) > 65535 then .error (rangeError fnParseUint s0)
      else parseUintLoop s0 65535 cs (10 * n + (c.toNat - '0'.toNat)) := by
  have h1 : '0' ≤ c ∧ c ≤ '9' := h
  have h2 := (isDecDigit_iff c).mp h
  have h0 : '0'.toNat = 48 := rfl
  have hd : ¬ (c.toNat - '0'.toNat ≥ 10) := by omega
  have hcut : ¬ (n ≥ maxUint64 / 10 + 1) := by
    have : maxUint64 / 10 + 1 = 1844674407370955162 := by decide
    omega
  have e1 : n * 10 % 2 ^ 64 = 10 * n := by
    rw [Nat.mod_eq_of_lt (by omega)]; omega
  have e2 : (10 * n + (c.toNat - '0'.toNat)) % 2 ^ 64 = 10 * n + (c.toNat - '0'.toNat) :=
    Nat.mod_eq_of_lt (by omega)
  simp only [parseUintLoop, if_pos h1, if_neg hd, if_neg hcut, e1, e2]
  by_cases hr : 10 * n + (c.toNat - '0'.toNat) > 65535
  · rw [if_pos hr, if_pos (Or.inr hr)]
  · rw [if_neg hr, if_neg (by omega)]

theorem le_decimalFrom (s : GoString) : ∀ n : Nat, n ≤ decimalFrom n s := by
  induction s with
  | nil => intro n; exact Nat.le_refl _
  | cons c cs ih =>
    intro n
    have := ih (10 * n + (c.toNat - '0'.toNat))
    simp only [decimalFrom, List.foldl_cons] at this ⊢
    omega

theorem parseUintLoop_ok (s0 : GoString) (cs : GoString) :
    ∀ n : Nat, (∀ c ∈ cs, isDecDigit c) → decimalFrom n cs ≤ 65535 →
      parseUintLoop s0 65535 cs n = .ok (decimalFrom n cs) := by
  induction cs with
  | nil => intro n _ _; rfl
  | cons c cs ih =>
    intro n hd hv
    have hc : isDecDigit c := hd c (List.mem_cons_self _ _)
    have hcs : ∀ x ∈ cs, isDecDigit x := fun x hx => hd x (List.mem_cons_of_mem _ hx)
    have hstep : decimalFrom n (c :: cs) = decimalFrom (10 * n + (c.toNat - '0'.toNat)) cs := rfl
    rw [hstep] at hv ⊢
    have h1 := le_decimalFrom cs (10 * n + (c.toNat - '0'.toNat))
    rw [parseUintLoop_digit s0 c cs n hc (by omega), if_neg (by omega)]
    exact ih _ hcs hv

theorem parseUintLoop_inv (s0 : GoString) (cs : GoString) :
    ∀ n v : Nat, n ≤ 65535 → parseUintLoop s0 65535 cs n = .ok v →
      (∀ c ∈ cs, isDecDigit c) ∧ decimalFrom n cs = v ∧ v ≤ 65535 := by
  induction cs with
  | nil =>
    intro n v hn h
    simp only [parseUintLoop, Except.ok.injEq] at h
    subst h
    exact ⟨by simp, rfl, hn⟩
  | cons c cs ih =>
    intro n v hn h
    by_cases hc : isDecDigit c
    · rw [parseUintLoop_digit s0 c cs n hc hn] at h
      by_cases hr : 10 * n + (c.toNat - '0'.toNat) > 65535
      · rw [if_pos hr] at h; cases h
      · rw [if_neg hr] at h
        obtain ⟨h1, h2, h3⟩ := ih _ v (by omega) h
        refine ⟨?_, h2, h3⟩
        intro x hx
        rcases List.mem_cons.mp hx with rfl | hx
        · exact hc
        · exact h1 x hx
    · rw [parseUintLoop_nondigit s0 65535 c cs n hc] at h
      cases h

/-- The call `strconv.ParseUint(s, 10, 16)` succeeds with the decimal value of `s` when `s` is a
non-empty digit string of value at most 65535. -/
theorem ParseUint_of_isUint16Decimal (s : GoString) (h : isUint16Decimal s) :
    ParseUint s 16 = .ok (decimalValue s) := by
  obtain ⟨h1, h2, h3⟩ := h
  have hb : ¬ (16 > 64) := by decide
  have h16 : (if (16 : Nat) = 0 then 64 else 16) = 16 := rfl
  have hm : 2 ^ 16 - 1 = 65535 := rfl
  simp only [ParseUint, if_neg h1, if_neg hb, h16, hm]
  exact parseUintLoop_ok s s 0 h2 h3

/-- The call `strconv.ParseUint(s, 10, 16)` succeeds only on non-empty digit strings of value at
most 65535, and then returns that value. -/
theorem ParseUint_ok_inv (s : GoString) (v : Nat) (h : ParseUint s 16 = .ok v) :
    isUint16Decimal s ∧ v = decimalValue s := by
  by_cases h1 : s = []
  · subst h1; cases h
  · have hb : ¬ (16 > 64) := by decide
    have h16 : (if (16 : Nat) = 0 then 64 else 16) = 16 := rfl
    have hm : 2 ^ 16 - 1 = 65535 := rfl
    simp only [ParseUint, if_neg h1, if_neg hb, h16, hm] at h
    obtain ⟨h2, h3, h4⟩ := parseUintLoop_inv s s 0 v (by decide) h
    exact ⟨⟨h1, h2, by unfold decimalValue; omega⟩, h3.symm⟩

theorem ParseUint_error_of_not (s : GoString) (h : ¬ isUint16Decimal s) :
    ∃ err, ParseUint s 16 = .error err := by
  cases hp : ParseUint s 16 with
  | error err => exact ⟨err, rfl⟩
  | ok v => exact absurd (ParseUint_ok_inv s v hp).1 h

/-! ## Canonical decimal numerals (`Nat.repr`) are accepted -/

theorem digitChar_isDecDigit (k : Nat) (hk : k < 10) :
    isDecDigit (Nat.digitChar k) ∧ (Nat.digitChar k).toNat - '0'.toNat = k := by
  interval_cases k <;> exact ⟨by decide, by decide⟩

theorem toDigitsCore_spec (fuel : Nat) :
    ∀ (n : Nat) (ds : List Char), n < fuel →
      ∃ l : List Char, Nat.toDigitsCore 10 fuel n ds = l ++ ds ∧ l ≠ [] ∧
        (∀ c ∈ l, isDecDigit c) ∧ ∀ a : Nat, decimalFrom a l = a * 10 ^ l.length + n := by
  induction fuel with
  | zero => intro n ds h; omega
  | succ fuel ih =>
    intro n ds hn
    obtain ⟨hd1, hd2⟩ := digitChar_isDecDigit (n % 10) (Nat.mod_lt _ (by decide))
    by_cases h0 : n / 10 = 0
    · refine ⟨[Nat.digitChar (n % 10)], ?_, by simp, ?_, ?_⟩
      · simp [Nat.toDigitsCore, h0]
      · intro c hc
        rw [List.mem_singleton.mp hc]
        exact hd1
      · intro a
        have hlt : n < 10 := by omega
        simp only [decimalFrom, List.foldl_cons, List.foldl_nil, hd2, List.length_singleton]
        omega
    · have hlt : n / 10 < fuel := by omega
      obtain ⟨l, hl1, _, hl3, hl4⟩ := ih (n / 10) (Nat.digitChar (n % 10) :: ds) hlt
      refine ⟨l ++ [Nat.digitChar (n % 10)], ?_, by simp, ?_, ?_⟩
      · simp [Nat.toDigitsCore, h0, hl1]
      · intro c hc
        rcases List.mem_append.mp hc with hc | hc
        · exact hl3 c hc
        · rw [List.mem_singleton.mp hc]
          exact hd1
      · intro a
        have e := hl4 a
        simp only [decimalFrom] at e
        simp only [decimalFrom, List.foldl_append, List.foldl_cons, List.foldl_nil, hd2, e,
          List.length_append, List.length_singleton, pow_succ]
        have := Nat.div_add_mod n 10
        ring_nf
        ring_nf at this
        omega

/-- The decimal numeral of `N` is a non-empty digit string of value `N`. -/
theorem repr_decimal (N : Nat) :
    (Nat.repr N).toList ≠ [] ∧ (∀ c ∈ (Nat.repr N).toList, isDecDigit c) ∧
      decimalValue (Nat.repr N).toList = N := by
  obtain ⟨l, h1, h2, h3, h4⟩ := toDigitsCore_spec (N + 1) N [] (Nat.lt_succ_self N)
  have e : (Nat.repr N).toList = l := by
    simp [Nat.repr, Nat.toDigits, h1, List.asString]
  rw [e]
  refine ⟨h2, h3, ?_⟩
  have := h4 0
  simpa [decimalValue] using this

theorem repr_isUint16Decimal (N : Nat) (h : N ≤ 65535) : isUint16Decimal (Nat.repr N).toList := by
  obtain ⟨h1, h2, h3⟩ := repr_decimal N
  exact ⟨h1, h2, by omega⟩

theorem ParseUint_repr (N : Nat) (h : N ≤ 65535) : ParseUint (Nat.repr N).toList 16 = .ok N := by
  rw [ParseUint_of_isUint16Decimal _ (repr_isUint16Decimal N h), (repr_decimal N).2.2]

theorem isDecDigit_ne_colon (c : Char) (h : isDecDigit c) : c ≠ ':' := by
  rintro rfl
  exact absurd h (by decide)

theorem isDecDigit_ne_comma (c : Char) (h : isDecDigit c) : c ≠ ',' := by
  rintro rfl
  exact absurd h (by decide)

/-! ## One entry of the ports flag -/

theorem colon_toList : ":".toList = [':'] := rfl

theorem comma_toList : ",".toList = [','] := rfl

theorem splitLoop_zero (sep s : GoString) : splitLoop sep 0 s = [s] := rfl

theorem entry_no_colon (e : GoString) (h : ':' ∉ e) :
    portValuesList.Set.entry e =
      match ParseUint e 16 with
      | .error err => .error err
      | .ok v => .ok ⟨v % 2 ^ 16, v % 2 ^ 16, []⟩ := by
  simp only [portValuesList.Set.entry, colon_toList, SplitN_three,
    splitLoop_of_not_mem ':' 2 e h, List.getD_cons_zero, List.length_cons, List.length_nil]

theorem entry_one_colon (f0 f1 : GoString) (h0 : ':' ∉ f0) (h1 : ':' ∉ f1) :
    portValuesList.Set.entry (f0 ++ ':' :: f1) =
      match ParseUint f0 16 with
      | .error err => .error err
      | .ok v =>
        match ParseUint f1 16 with
        | .error err => .error err
        | .ok w => .ok ⟨v % 2 ^ 16, w % 2 ^ 16, "TCP".toList⟩ := by
  simp only [portValuesList.Set.entry, colon_toList, SplitN_three,
    splitLoop_succ_append ':' 1 f0 f1 h0, splitLoop_of_not_mem ':' 1 f1 h1,
    List.getD_cons_zero, List.getD_cons_succ, List.length_cons, List.length_nil]

theorem entry_two_colons (f0 f1 rest : GoString) (h0 : ':' ∉ f0) (h1 : ':' ∉ f1) :
    portValuesList.Set.entry (f0 ++ ':' :: (f1 ++ ':' :: rest)) =
      match ParseUint f0 16 with
      | .error err => .error err
      | .ok v =>
        match ParseUint f1 16 with
        | .error err => .error err
        | .ok w => .ok ⟨v % 2 ^ 16, w % 2 ^ 16, rest⟩ := by
  simp only [portValuesList.Set.entry, colon_toList, SplitN_three,
    splitLoop_succ_append ':' 1 f0 _ h0, splitLoop_succ_append ':' 0 f1 rest h1, splitLoop_zero,
    List.getD_cons_zero, List.getD_cons_succ, List.length_cons, List.length_nil]

theorem mod_of_isUint16Decimal (s : GoString) (h : isUint16Decimal s) :
    decimalValue s % 2 ^ 16 = decimalValue s :=
  Nat.mod_eq_of_lt (by have := h.2.2; omega)

theorem not_mem_colon_of_isUint16Decimal (s : GoString) (h : isUint16Decimal s) : ':' ∉ s :=
  fun hm => isDecDigit_ne_colon _ (h.2.1 _ hm) rfl

theorem not_mem_comma_of_isUint16Decimal (s : GoString) (h : isUint16Decimal s) : ',' ∉ s :=
  fun hm => isDecDigit_ne_comma _ (h.2.1 _ hm) rfl

/-- The loop body succeeds exactly on the entries whose numeric fields are valid. -/
theorem entry_ok_iff (e : GoString) :
    (∃ m, portValuesList.Set.entry e = .ok m) ↔ entryNumbersOK e := by
  unfold entryNumbersOK
  rw [colon_toList]
  by_cases hc : ':' ∈ e
  · obtain ⟨f0, r, rfl, h0⟩ := List.eq_append_cons_of_mem hc
    rw [Split_append_cons ':' f0 r h0]
    by_cases hr : ':' ∈ r
    · obtain ⟨f1, t, rfl, h1⟩ := List.eq_append_cons_of_mem hr
      rw [entry_two_colons f0 f1 t h0 h1, Split_append_cons ':' f1 t h1]
      simp only [List.getD_cons_zero, List.getD_cons_succ, List.length_cons]
      constructor
      · rintro ⟨m, hm⟩
        cases hp0 : ParseUint f0 16 with
        | error err => rw [hp0] at hm; cases hm
        | ok v =>
          cases hp1 : ParseUint f1 16 with
          | error err => rw [hp0, hp1] at hm; cases hm
          | ok w => exact ⟨(ParseUint_ok_inv f0 v hp0).1, fun _ => (ParseUint_ok_inv f1 w hp1).1⟩
      · rintro ⟨g0, g1⟩
        rw [ParseUint_of_isUint16Decimal f0 g0, ParseUint_of_isUint16Decimal f1 (g1 (by omega))]
        exact ⟨_, rfl⟩
    · rw [entry_one_colon f0 r h0 hr, Split_of_not_mem ':' r hr]
      simp only [List.getD_cons_zero, List.getD_cons_succ, List.length_cons, List.length_nil]
      constructor
      · rintro ⟨m, hm⟩
        cases hp0 : ParseUint f0 16 with
        | error err => rw [hp0] at hm; cases hm
        | ok v =>
          cases hp1 : ParseUint r 16 with
          | error err => rw [hp0, hp1] at hm; cases hm
          | ok w => exact ⟨(ParseUint_ok_inv f0 v hp0).1, fun _ => (ParseUint_ok_inv r w hp1).1⟩
      · rintro ⟨g0, g1⟩
        rw [ParseUint_of_isUint16Decimal f0 g0, ParseUint_of_isUint16Decimal r (g1 (by omega))]
        exact ⟨_, rfl⟩
  · rw [entry_no_colon e hc, Split_of_not_mem ':' e hc]
    simp only [List.getD_cons_zero, List.length_cons, List.length_nil]
    constructor
    · rintro ⟨m, hm⟩
      cases hp0 : ParseUint e 16 with
      | error err => rw [hp0] at hm; cases hm
      | ok v => exact ⟨(ParseUint_ok_inv e v hp0).1, fun h => absurd h (by omega)⟩
    · rintro ⟨g0, _⟩
      rw [ParseUint_of_isUint16Decimal e g0]
      exact ⟨_, rfl⟩

theorem entry_error_iff (e : GoString) :
    (∃ err, portValuesList.Set.entry e = .error err) ↔ ¬ entryNumbersOK e := by
  rw [← entry_ok_iff]
  cases portValuesList.Set.entry e with
  | error err => simp
  | ok m => simp

/-! ## The loop of `portValuesList.Set` -/

theorem loop_ok (es : List GoString) :
    ∀ (ms acc : List portValues),
      List.Forall₂ (fun e m => portValuesList.Set.entry e = .ok m) es ms →
      portValuesList.Set.loop es acc = (acc ++ ms, none) := by
  induction es with
  | nil =>
    intro ms acc h
    cases h
    simp [portValuesList.Set.loop]
  | cons e es ih =>
    intro ms acc h
    cases h with
    | cons h1 h2 =>
      simp only [portValuesList.Set.loop, h1]
      rw [ih _ _ h2, List.append_assoc, List.singleton_append]

theorem loop_error (pre : List GoString) :
    ∀ (ms acc : List portValues) (bad : GoString) (rest : List GoString) (err : NumError),
      List.Forall₂ (fun e m => portValuesList.Set.entry e = .ok m) pre ms →
      portValuesList.Set.entry bad = .error err →
      portValuesList.Set.loop (pre ++ bad :: rest) acc = (acc ++ ms, some err) := by
  induction pre with
  | nil =>
    intro ms acc bad rest err h hb
    cases h
    simp [portValuesList.Set.loop, hb]
  | cons e es ih =>
    intro ms acc bad rest err h hb
    cases h with
    | cons h1 h2 =>
      rw [List.cons_append]
      simp only [portValuesList.Set.loop, h1]
      rw [ih _ _ bad rest err h2 hb, List.append_assoc, List.singleton_append]

/-- Every list of entries either parses entirely, or splits at its first failing
entry. -/
theorem loop_entries_cases (es : List GoString) :
    (∃ ms, List.Forall₂ (fun e m => portValuesList.Set.entry e = .ok m) es ms) ∨
    (∃ pre bad rest ms err, es = pre ++ bad :: rest ∧
      List.Forall₂ (fun e m => portValuesList.Set.entry e = .ok m) pre ms ∧
      portValuesList.Set.entry bad = .error err) := by
  induction es with
  | nil => exact Or.inl ⟨[], List.Forall₂.nil⟩
  | cons e es ih =>
    cases he : portValuesList.Set.entry e with
    | error err => exact Or.inr ⟨[], e, es, [], err, rfl, List.Forall₂.nil, he⟩
    | ok m =>
      rcases ih with ⟨ms, h⟩ | ⟨pre, bad, rest, ms, err, h1, h2, h3⟩
      · exact Or.inl ⟨m :: ms, List.Forall₂.cons he h⟩
      · exact Or.inr ⟨e :: pre, bad, rest, m :: ms, err, by rw [h1]; rfl,
          List.Forall₂.cons he h2, h3⟩

theorem loop_error_iff (es : List GoString) (acc : List portValues) :
    (portValuesList.Set.loop es acc).2 ≠ none ↔ ∃ e ∈ es, ¬ entryNumbersOK e := by
  constructor
  · intro h
    rcases loop_entries_cases es with ⟨ms, hms⟩ | ⟨pre, bad, rest, ms, err, h1, _, h3⟩
    · rw [loop_ok es ms acc hms] at h
      exact absurd rfl h
    · exact ⟨bad, by rw [h1]; simp, (entry_error_iff bad).mp ⟨err, h3⟩⟩
  · rintro ⟨e, he, hbad⟩
    rcases loop_entries_cases es with ⟨ms, hms⟩ | ⟨pre, bad, rest, ms, err, h1, h2, h3⟩
    · exfalso
      apply hbad
      rw [← entry_ok_iff]
      clear hbad
      induction hms with
      | nil => cases he
      | cons h1 _ ih =>
        rcases List.mem_cons.mp he with rfl | he
        · exact ⟨_, h1⟩
        · exact ih he
    · rw [h1, loop_error pre ms acc bad rest err h2 h3]
      simp

/-! ## `portValuesList.Set` on whole flag values -/

theorem Set_eq_loop (acc : List portValues) (value : GoString) :
    portValuesList.Set ⟨acc⟩ value =
      (⟨(portValuesList.Set.loop (Split value [',']) acc).1⟩,
        (portValuesList.Set.loop (Split value [',']) acc).2) := rfl

theorem Set_single_entry (acc : List portValues) (value : GoString) (m : portValues)
    (hc : ',' ∉ value) (he : portValuesList.Set.entry value = .ok m) :
    portValuesList.Set ⟨acc⟩ value = (⟨acc ++ [m]⟩, none) := by
  rw [Set_eq_loop, Split_of_not_mem ',' value hc]
  simp [portValuesList.Set.loop, he]

/-- An entry `f0:f1:P` with valid numbers is accepted whatever `P` is, colons included,
and `P` becomes the protocol as it stands. -/
theorem Set_three_fields (acc : List portValues) (f0 f1 P : GoString)
    (h0 : isUint16Decimal f0) (h1 : isUint16Decimal f1) (hP : ',' ∉ P) :
    portValuesList.Set ⟨acc⟩ (f0 ++ ':' :: (f1 ++ ':' :: P)) =
      (⟨acc ++ [⟨decimalValue f0, decimalValue f1, P⟩]⟩, none) := by
  apply Set_single_entry
  · have c0 := not_mem_comma_of_isUint16Decimal f0 h0
    have c1 := not_mem_comma_of_isUint16Decimal f1 h1
    simp [c0, c1, hP]
  · rw [entry_two_colons f0 f1 P (not_mem_colon_of_isUint16Decimal f0 h0)
      (not_mem_colon_of_isUint16Decimal f1 h1), ParseUint_of_isUint16Decimal f0 h0,
      ParseUint_of_isUint16Decimal f1 h1]
    simp only [mod_of_isUint16Decimal f0 h0, mod_of_isUint16Decimal f1 h1]

theorem not_entryNumbersOK_nil : ¬ entryNumbersOK [] := by decide

theorem not_entryNumbersOK_colon (r : GoString) : ¬ entryNumbersOK (':' :: r) := by
  intro h
  have h0 := h.1
  rw [colon_toList] at h0
  have e : Split (':' :: r) [':'] = [] :: Split r [':'] :=
    Split_append_cons ':' [] r (List.not_mem_nil _)
  rw [e] at h0
  exact h0.1 rfl

/-! ## Reading the first line, formatting the file name -/

theorem newline_toList : "\n".toList = ['\n'] := rfl

theorem marker_toList : "///".toList = ['/', '/', '/'] := rfl

theorem slot_toList : "%s".toList = ['%', 's'] := rfl

theorem ReadString_line (delim : Char) (line rest : GoString) (h : delim ∉ line) :
    ReadString (line ++ delim :: rest) delim = (line ++ [delim], rest, true) := by
  induction line with
  | nil => simp [ReadString]
  | cons x xs ih =>
    have hx : x ≠ delim := fun e => h (e ▸ List.mem_cons_self _ _)
    have hxs : delim ∉ xs := fun m => h (List.mem_cons_of_mem _ m)
    simp [ReadString, hx, ih hxs]

theorem ReadString_eof (delim : Char) (s : GoString) (h : delim ∉ s) :
    ReadString s delim = (s, [], false) := by
  induction s with
  | nil => rfl
  | cons x xs ih =>
    have hx : x ≠ delim := fun e => h (e ▸ List.mem_cons_self _ _)
    have hxs : delim ∉ xs := fun m => h (List.mem_cons_of_mem _ m)
    simp [ReadString, hx, ih hxs]

theorem Sprintf_text_append (l r : GoString) (args : List GoString) (h : '%' ∉ l) :
    Sprintf (l ++ r) args = (Sprintf r args).map (fun out => l ++ out) := by
  induction l with
  | nil => simp
  | cons x xs ih =>
    have hx : x ≠ '%' := fun e => h (e ▸ List.mem_cons_self _ _)
    have hxs : '%' ∉ xs := fun m => h (List.mem_cons_of_mem _ m)
    rw [List.cons_append, Sprintf.eq_def]
    simp only [ne_eq, hx, not_false_eq_true, if_true, ih hxs, Option.map_map]
    rfl

theorem Sprintf_text (l : GoString) (h : '%' ∉ l) : Sprintf l [] = some l := by
  have := Sprintf_text_append l [] [] h
  rw [List.append_nil] at this
  rw [this]
  simp [Sprintf, extraString]

/-- A format with exactly one `%s` slot has the operand put in the place of the slot. -/
theorem Sprintf_one_slot (pre post a : GoString) (hpre : '%' ∉ pre) (hpost : '%' ∉ post) :
    Sprintf (pre ++ '%' :: 's' :: post) [a] = some (pre ++ (a ++ post)) := by
  rw [Sprintf_text_append pre _ _ hpre]
  have : Sprintf ('%' :: 's' :: post) [a] = some (a ++ post) := by
    simp [Sprintf, Sprintf_text post hpost]
  rw [this]
  rfl

theorem HasPrefix_marker_line (line : GoString) (h : HasPrefix line "///".toList = false) :
    HasPrefix (line ++ ['\n']) "///".toList = false := by
  rw [marker_toList] at h ⊢
  rcases line with _ | ⟨a, _ | ⟨b, _ | ⟨c, t⟩⟩⟩
  · decide
  · simp [HasPrefix, List.isPrefixOf] at h ⊢
  · simp [HasPrefix, List.isPrefixOf] at h ⊢
  · simp [HasPrefix, List.isPrefixOf] at h ⊢
    exact h

theorem file_directive {E T : Type} (fs : GoString → Option GoString)
    (Parse : GoString → GoString → Except E T) (Name fp F B pre post : GoString)
    (hfile : fs fp = some ('/' :: '/' :: '/' :: (F ++ '\n' :: B)))
    (hF : '\n' ∉ F) (hfmt : F = pre ++ '%' :: 's' :: post)
    (hpre : '%' ∉ pre) (hpost : '%' ∉ post) :
    parseTemplates.file fs Parse Name fp =
      parseTemplates.parseBody Parse fp (pre ++ (Name ++ post)) B := by
  have hline : '\n' ∉ '/' :: '/' :: '/' :: F := by
    intro hm
    rcases List.mem_cons.mp hm with h | hm
    · exact absurd h (by decide)
    rcases List.mem_cons.mp hm with h | hm
    · exact absurd h (by decide)
    rcases List.mem_cons.mp hm with h | hm
    · exact absurd h (by decide)
    exact hF hm
  have hr : ReadString ('/' :: '/' :: '/' :: (F ++ '\n' :: B)) '\n' =
      ('/' :: '/' :: '/' :: (F ++ ['\n']), B, true) :=
    ReadString_line '\n' ('/' :: '/' :: '/' :: F) B hline
  have hlen : ('/' :: '/' :: '/' :: (F ++ ['\n'])).length = F.length + 4 := by simp
  have hp : HasPrefix ('/' :: '/' :: '/' :: (F ++ ['\n'])) "///".toList = true := by
    simp [HasPrefix, marker_toList, List.isPrefixOf]
  have hhi : (((F.length + 4 : Nat) : Int) - 1).toNat = F.length + 3 := by omega
  have hcond : 3 ≤ ((F.length + 4 : Nat) : Int) - 1 ∧
      ((F.length + 4 : Nat) : Int) - 1 ≤ ((F.length + 4 : Nat) : Int) := by omega
  have hslice : (('/' :: '/' :: '/' :: (F ++ ['\n'])).take (F.length + 3)).drop 3 = F := by
    simp [List.take_append_eq_append_take]
  simp only [parseTemplates.file, hfile, hr, hlen, hp, hhi, if_pos hcond, hslice]
  simp [hfmt, Sprintf_one_slot pre post Name hpre hpost]

theorem file_plain {E T : Type} (fs : GoString → Option GoString)
    (Parse : GoString → GoString → Except E T) (Name fp line rest : GoString)
    (hfile : fs fp = some (line ++ '\n' :: rest))
    (hline : '\n' ∉ line) (hno : HasPrefix line "///".toList = false) :
    parseTemplates.file fs Parse Name fp =
      parseTemplates.parseBody Parse fp (Replace (Base fp) ".tmpl".toList [] 1)
        (line ++ '\n' :: rest) := by
  have hr := ReadString_line '\n' line rest hline
  have hp := HasPrefix_marker_line line hno
  simp only [parseTemplates.file, hfile, hr, hp]
  simp

theorem parseTemplates_single {E T : Type} (fs : GoString → Option GoString)
    (Parse : GoString → GoString → Except E T) (Name fp : GoString) :
    parseTemplates fs Parse Name [fp] =
      match parseTemplates.file fs Parse Name fp with
      | .ok tf => .ok [tf]
      | .panic p => .panic p
      | .unmodelled => .unmodelled := by
  simp only [parseTemplates, parseTemplates.loop]
  cases parseTemplates.file fs Parse Name fp <;> rfl

/-! ## The first occurrence of a substring, and its replacement -/

theorem Index_first (sub : GoString) (hsub : sub ≠ []) (b : GoString) :
    ∀ a : GoString, (∀ i, i < a.length → ¬ (sub <+: (a ++ (sub ++ b)).drop i)) →
      Index (a ++ (sub ++ b)) sub = some a.length := by
  intro a
  induction a with
  | nil =>
    intro _
    obtain ⟨c, cs, hc⟩ := List.exists_cons_of_ne_nil hsub
    have hp : sub.isPrefixOf (c :: (cs ++ b)) = true := by
      rw [List.isPrefixOf_iff_prefix, hc]
      exact List.prefix_append _ _
    simp only [List.nil_append, hc, List.cons_append, List.length_nil]
    rw [hc] at hp
    simp only [Index, hp, if_true]
  | cons x a1 ih =>
    intro hmin
    have h0 : ¬ (sub.isPrefixOf (x :: (a1 ++ (sub ++ b))) = true) := by
      rw [List.isPrefixOf_iff_prefix]
      exact hmin 0 (Nat.succ_pos _)
    have htail : ∀ i, i < a1.length → ¬ (sub <+: (a1 ++ (sub ++ b)).drop i) := by
      intro i hi
      have := hmin (i + 1) (by simp only [List.length_cons]; omega)
      simpa using this
    rw [List.cons_append]
    simp only [Index, h0, if_false, ih htail, Option.map_some', List.length_cons]
    simp

/-- Go `strings.Replace(s, old, "", 1)` removes the first occurrence of `old`, and
nothing else. -/
theorem Replace_first (old a b : GoString) (hold : old ≠ [])
    (hfirst : ∀ i, i < a.length → ¬ (old <+: (a ++ (old ++ b)).drop i)) :
    Replace (a ++ (old ++ b)) old [] 1 = a ++ b := by
  have hidx := Index_first old hold b a hfirst
  have hlen : (a ++ (old ++ b)).length = (a.length + b.length + old.length - 1) + 1 := by
    have : 0 < old.length := List.length_pos.mpr hold
    simp only [List.length_append]
    omega
  have hcount : Count (a ++ (old ++ b)) old =
      countLoop old (a.length + b.length + old.length - 1) b + 1 := by
    simp only [Count, if_neg hold]
    rw [hlen]
    simp only [countLoop, hidx]
    simp
  have h1 : ¬ (old = [] ∨ (1 : Int) = 0) := by
    rintro (h | h)
    · exact hold h
    · exact absurd h (by decide)
  have hk : ¬ ((1 : Int) < 0 ∨
      ((countLoop old (a.length + b.length + old.length - 1) b + 1 : Nat) : Int) < 1) := by
    omega
  have ht : (1 : Int).toNat = 1 := rfl
  simp only [Replace, if_neg h1, hcount, Nat.succ_ne_zero, if_false, if_neg hk, if_neg hold, ht]
  simp [replaceLoop, hidx]

/-! ## Claims on the ports flag -/

/-- C1. When every comma-separated entry of `value` parses, `Set` succeeds and the
accumulated sequence becomes the previous sequence `acc`, unchanged, followed by exactly
one mapping per entry, in the order of the entries. -/
theorem Set_appends_one_mapping_per_entry (value : GoString) (acc : List portValues)
    (h : ∀ e ∈ Split value ",".toList, ∃ m, portValuesList.Set.entry e = .ok m) :
    ∃ ms, List.Forall₂ (fun e m => portValuesList.Set.entry e = .ok m)
        (Split value ",".toList) ms ∧
      portValuesList.Set ⟨acc⟩ value = (⟨acc ++ ms⟩, none) := by
  rw [comma_toList] at h ⊢
  rcases loop_entries_cases (Split value [',']) with ⟨ms, hms⟩ | ⟨pre, bad, rest, ms, err, h1, _, h3⟩
  · refine ⟨ms, hms, ?_⟩
    rw [Set_eq_loop, loop_ok _ ms acc hms]
  · obtain ⟨m, hm⟩ := h bad (by rw [h1]; simp)
    rw [hm] at h3
    cases h3

/-- C1, on the example of the specification: `80,443:8443:HTTPS` on an empty sequence. -/
theorem Set_appends_one_mapping_per_entry_witness :
    (∀ e ∈ Split "80,443:8443:HTTPS".toList ",".toList,
      ∃ m, portValuesList.Set.entry e = .ok m) ∧
    (∃ ms, List.Forall₂ (fun e m => portValuesList.Set.entry e = .ok m)
        (Split "80,443:8443:HTTPS".toList ",".toList) ms ∧
      portValuesList.Set ⟨[]⟩ "80,443:8443:HTTPS".toList = (⟨[] ++ ms⟩, none)) ∧
    portValuesList.Set ⟨[]⟩ "80,443:8443:HTTPS".toList =
      (⟨[⟨80, 80, []⟩, ⟨443, 8443, "HTTPS".toList⟩]⟩, none) := by
  have hs : Split "80,443:8443:HTTPS".toList ",".toList = ["80".toList, "443:8443:HTTPS".toList] := by
    decide
  have hyp : ∀ e ∈ Split "80,443:8443:HTTPS".toList ",".toList,
      ∃ m, portValuesList.Set.entry e = .ok m := by
    intro e he
    rw [hs] at he
    rcases List.mem_cons.mp he with rfl | he
    · exact ⟨⟨80, 80, []⟩, rfl⟩
    · rw [List.mem_singleton.mp he]
      exact ⟨⟨443, 8443, "HTTPS".toList⟩, rfl⟩
  exact ⟨hyp, Set_appends_one_mapping_per_entry _ [] hyp, by decide⟩

/-- C2, refuted as stated: on `80,abc` the second entry has a non-numeric field 0, `Set`
returns its syntax error, and the mapping of the first entry has been appended. -/
theorem Set_failure_leaves_sequence_counterexample :
    (∃ e ∈ Split "80,abc".toList ",".toList,
      ¬ isUint16Decimal ((Split e ":".toList).getD 0 [])) ∧
    portValuesList.Set ⟨[]⟩ "80,abc".toList =
      (⟨[⟨80, 80, []⟩]⟩, some (syntaxError fnParseUint "abc".toList)) ∧
    (portValuesList.Set ⟨[]⟩ "80,abc".toList).1 ≠ ⟨[]⟩ := by
  refine ⟨⟨"abc".toList, by decide, by decide⟩, by decide, by decide⟩

/-- C2, amended. If some entry has an invalid field 0 (or field 1, when present), `Set`
returns the error of the first such entry `bad`, and the accumulated sequence is the
previous one followed by the mappings of the entries `pre` that precede `bad`: nothing
is appended for `bad` or for the entries after it, and nothing at all when `bad` is the
first entry. -/
theorem Set_failure_keeps_only_earlier_entries (value : GoString) (acc : List portValues)
    (h : ∃ e ∈ Split value ",".toList, ¬ entryNumbersOK e) :
    ∃ pre bad rest ms err,
      Split value ",".toList = pre ++ bad :: rest ∧ ¬ entryNumbersOK bad ∧
      List.Forall₂ (fun e m => portValuesList.Set.entry e = .ok m) pre ms ∧
      portValuesList.Set.entry bad = .error err ∧
      portValuesList.Set ⟨acc⟩ value = (⟨acc ++ ms⟩, some err) := by
  rw [comma_toList] at h ⊢
  rcases loop_entries_cases (Split value [',']) with ⟨ms, hms⟩ | ⟨pre, bad, rest, ms, err, h1, h2, h3⟩
  · exfalso
    have hne := (loop_error_iff (Split value [',']) acc).mpr h
    rw [loop_ok _ ms acc hms] at hne
    exact hne rfl
  · refine ⟨pre, bad, rest, ms, err, h1, (entry_error_iff bad).mp ⟨err, h3⟩, h2, h3, ?_⟩
    rw [Set_eq_loop, h1, loop_error pre ms acc bad rest err h2 h3]

/-- C2 amended, on `80,abc` after a previously accumulated mapping. -/
theorem Set_failure_keeps_only_earlier_entries_witness :
    (∃ e ∈ Split "80,abc".toList ",".toList, ¬ entryNumbersOK e) ∧
    ∃ pre bad rest ms err,
      Split "80,abc".toList ",".toList = pre ++ bad :: rest ∧ ¬ entryNumbersOK bad ∧
      List.Forall₂ (fun e m => portValuesList.Set.entry e = .ok m) pre ms ∧
      portValuesList.Set.entry bad = .error err ∧
      portValuesList.Set ⟨[⟨22, 22, []⟩]⟩ "80,abc".toList =
        (⟨[⟨22, 22, []⟩] ++ ms⟩, some err) :=
  ⟨⟨"abc".toList, by decide, by decide⟩,
    Set_failure_keeps_only_earlier_entries _ _ ⟨"abc".toList, by decide, by decide⟩⟩

/-- C3, refuted as stated: the entry `80:8080:TCP:x` is accepted, but its protocol is
`TCP:x`, not the `TCP` of the three-field entry `80:8080:TCP`. -/
theorem Set_extra_fields_ignored_counterexample :
    portValuesList.Set ⟨[]⟩ "80:8080:TCP:x".toList =
      (⟨[⟨80, 8080, "TCP:x".toList⟩]⟩, none) ∧
    portValuesList.Set ⟨[]⟩ "80:8080:TCP".toList =
      (⟨[⟨80, 8080, "TCP".toList⟩]⟩, none) ∧
    portValuesList.Set ⟨[]⟩ "80:8080:TCP:x".toList ≠
      portValuesList.Set ⟨[]⟩ "80:8080:TCP".toList := by
  refine ⟨by decide, by decide, by decide⟩

/-- C3, amended. An entry `f0:f1:f2:rest` with four or more colon-separated fields whose
first two fields are valid is accepted without error, and nothing of it is dropped: the
one mapping appended has as protocol everything after the second colon, `f2:rest`. -/
theorem Set_extra_fields_kept_in_protocol (acc : List portValues) (f0 f1 f2 rest : GoString)
    (h0 : isUint16Decimal f0) (h1 : isUint16Decimal f1)
    (h2 : ':' ∉ f2 ∧ ',' ∉ f2) (hr : ',' ∉ rest) :
    portValuesList.Set ⟨acc⟩
        (f0 ++ ":".toList ++ f1 ++ ":".toList ++ f2 ++ ":".toList ++ rest) =
      (⟨acc ++ [⟨decimalValue f0, decimalValue f1, f2 ++ ":".toList ++ rest⟩]⟩, none) := by
  have hP : ',' ∉ f2 ++ ':' :: rest := by
    simp [h2.2, hr]
  have := Set_three_fields acc f0 f1 (f2 ++ ':' :: rest) h0 h1 hP
  simpa [colon_toList, List.append_assoc] using this

/-- C3 amended, on `80:8080:TCP:x:y`. -/
theorem Set_extra_fields_kept_in_protocol_witness :
    portValuesList.Set ⟨[]⟩
        ("80".toList ++ ":".toList ++ "8080".toList ++ ":".toList ++ "TCP".toList ++
          ":".toList ++ "x:y".toList) =
      (⟨[] ++ [⟨decimalValue "80".toList, decimalValue "8080".toList,
        "TCP".toList ++ ":".toList ++ "x:y".toList⟩]⟩, none) :=
  Set_extra_fields_kept_in_protocol [] "80".toList "8080".toList "TCP".toList "x:y".toList
    (by decide) (by decide) (by decide) (by decide)

/-- C4. For every `N` in `0..65535`, `Set` on the decimal numeral of `N` and an empty
sequence succeeds with the single mapping `(N, N, "")`. -/
theorem Set_single_field (N : Nat) (hN : N ≤ 65535) :
    portValuesList.Set ⟨[]⟩ (Nat.repr N).toList = (⟨[⟨N, N, []⟩]⟩, none) := by
  have hv := repr_isUint16Decimal N hN
  have := Set_single_entry [] (Nat.repr N).toList ⟨N, N, []⟩
    (not_mem_comma_of_isUint16Decimal _ hv)
    (by
      rw [entry_no_colon _ (not_mem_colon_of_isUint16Decimal _ hv), ParseUint_repr N hN]
      simp only [Nat.mod_eq_of_lt (show N < 2 ^ 16 by omega)])
  simpa using this

/-- C4 at the largest port, `65535`. -/
theorem Set_single_field_witness :
    (65535 : Nat) ≤ 65535 ∧
    portValuesList.Set ⟨[]⟩ (Nat.repr 65535).toList = (⟨[⟨65535, 65535, []⟩]⟩, none) :=
  ⟨Nat.le_refl _, Set_single_field 65535 (Nat.le_refl _)⟩

/-- C5. For every `N` and `M` in `0..65535`, `Set` on `N:M` (decimal numerals) and an
empty sequence succeeds with the single mapping `(N, M, "TCP")`. -/
theorem Set_two_fields (N M : Nat) (hN : N ≤ 65535) (hM : M ≤ 65535) :
    portValuesList.Set ⟨[]⟩ ((Nat.repr N).toList ++ ":".toList ++ (Nat.repr M).toList) =
      (⟨[⟨N, M, "TCP".toList⟩]⟩, none) := by
  have hn := repr_isUint16Decimal N hN
  have hm := repr_isUint16Decimal M hM
  have key := Set_single_entry [] ((Nat.repr N).toList ++ ':' :: (Nat.repr M).toList)
    ⟨N, M, "TCP".toList⟩
    (by
      intro hmem
      rcases List.mem_append.mp hmem with h | h
      · exact not_mem_comma_of_isUint16Decimal _ hn h
      · rcases List.mem_cons.mp h with h | h
        · exact absurd h (by decide)
        · exact not_mem_comma_of_isUint16Decimal _ hm h)
    (by
      rw [entry_one_colon _ _ (not_mem_colon_of_isUint16Decimal _ hn)
        (not_mem_colon_of_isUint16Decimal _ hm), ParseUint_repr N hN, ParseUint_repr M hM]
      simp only [Nat.mod_eq_of_lt (show N < 2 ^ 16 by omega),
        Nat.mod_eq_of_lt (show M < 2 ^ 16 by omega)])
  simpa [colon_toList, List.append_assoc] using key

/-- C5 on `443:8443`. -/
theorem Set_two_fields_witness :
    (443 : Nat) ≤ 65535 ∧ (8443 : Nat) ≤ 65535 ∧
    portValuesList.Set ⟨[]⟩ ((Nat.repr 443).toList ++ ":".toList ++ (Nat.repr 8443).toList) =
      (⟨[⟨443, 8443, "TCP".toList⟩]⟩, none) :=
  ⟨by decide, by decide, Set_two_fields 443 8443 (by decide) (by decide)⟩

/-- C6. For every `N` and `M` in `0..65535` and every string `P` without `,` and `:`
(empty or not, a known protocol name or not), `Set` on `N:M:P` and an empty sequence
succeeds with the single mapping `(N, M, P)`, `P` as it stands. -/
theorem Set_three_fields_verbatim (N M : Nat) (P : GoString) (hN : N ≤ 65535) (hM : M ≤ 65535)
    (hP : ',' ∉ P ∧ ':' ∉ P) :
    portValuesList.Set ⟨[]⟩
        ((Nat.repr N).toList ++ ":".toList ++ (Nat.repr M).toList ++ ":".toList ++ P) =
      (⟨[⟨N, M, P⟩]⟩, none) := by
  have key := Set_three_fields [] (Nat.repr N).toList (Nat.repr M).toList P
    (repr_isUint16Decimal N hN) (repr_isUint16Decimal M hM) hP.1
  rw [(repr_decimal N).2.2, (repr_decimal M).2.2] at key
  simpa [colon_toList, List.append_assoc] using key

/-- C6 on `53:5353:not a protocol!`. -/
theorem Set_three_fields_verbatim_witness :
    (53 : Nat) ≤ 65535 ∧ (5353 : Nat) ≤ 65535 ∧
    (',' ∉ "not a protocol!".toList ∧ ':' ∉ "not a protocol!".toList) ∧
    portValuesList.Set ⟨[]⟩
        ((Nat.repr 53).toList ++ ":".toList ++ (Nat.repr 5353).toList ++ ":".toList ++
          "not a protocol!".toList) =
      (⟨[⟨53, 5353, "not a protocol!".toList⟩]⟩, none) :=
  ⟨by decide, by decide, by decide,
    Set_three_fields_verbatim 53 5353 "not a protocol!".toList (by decide) (by decide)
      (by decide)⟩

/-- C7. `Set` returns an error exactly when some comma-separated entry has a field 0, or
a field 1 when it has two or more colon-separated fields, that is not a non-empty string
of decimal digits of value at most 65535.  In particular it fails on the empty input, on
a leading, trailing or doubled comma and on an entry starting with a colon; it accepts
65535 and rejects 65536; and no protocol (comma-free text after the second colon) makes
an entry with valid numbers fail. -/
theorem Set_error_iff_invalid_number (acc : List portValues) :
    (∀ value : GoString, (portValuesList.Set ⟨acc⟩ value).2 ≠ none ↔
      ∃ e ∈ Split value ",".toList, ¬ entryNumbersOK e) ∧
    (portValuesList.Set ⟨acc⟩ []).2 ≠ none ∧
    (∀ a : GoString, (portValuesList.Set ⟨acc⟩ (",".toList ++ a)).2 ≠ none) ∧
    (∀ a : GoString, (portValuesList.Set ⟨acc⟩ (a ++ ",".toList)).2 ≠ none) ∧
    (∀ a b : GoString, (portValuesList.Set ⟨acc⟩ (a ++ ",,".toList ++ b)).2 ≠ none) ∧
    (∀ (value : GoString) (r : GoString), ':' :: r ∈ Split value ",".toList →
      (portValuesList.Set ⟨acc⟩ value).2 ≠ none) ∧
    (portValuesList.Set ⟨acc⟩ "65535".toList).2 = none ∧
    (portValuesList.Set ⟨acc⟩ "65536".toList).2 ≠ none ∧
    (∀ f0 f1 P : GoString, isUint16Decimal f0 → isUint16Decimal f1 → ',' ∉ P →
      (portValuesList.Set ⟨acc⟩ (f0 ++ ":".toList ++ f1 ++ ":".toList ++ P)).2 = none) := by
  have hiff : ∀ value : GoString, (portValuesList.Set ⟨acc⟩ value).2 ≠ none ↔
      ∃ e ∈ Split value [','], ¬ entryNumbersOK e := by
    intro value
    rw [Set_eq_loop]
    exact loop_error_iff _ acc
  have hnil : ([] : GoString) ∈ Split [] [','] := by decide
  have hcc : ",,".toList = [',', ','] := rfl
  rw [comma_toList]
  refine ⟨hiff, ?_, ?_, ?_, ?_, ?_, ?_, ?_, ?_⟩
  · exact (hiff []).mpr ⟨[], hnil, not_entryNumbersOK_nil⟩
  · intro a
    refine (hiff _).mpr ⟨[], ?_, not_entryNumbersOK_nil⟩
    rw [List.singleton_append, ← List.nil_append (',' :: a), Split_append_sep ',' a []]
    exact List.mem_append_left _ hnil
  · intro a
    refine (hiff _).mpr ⟨[], ?_, not_entryNumbersOK_nil⟩
    rw [Split_append_sep ',' [] a]
    exact List.mem_append_right _ hnil
  · intro a b
    refine (hiff _).mpr ⟨[], ?_, not_entryNumbersOK_nil⟩
    have e : a ++ ",,".toList ++ b = a ++ ',' :: ([] ++ ',' :: b) := by
      rw [hcc]; simp
    rw [e, Split_append_sep ',' _ a, Split_append_sep ',' b []]
    exact List.mem_append_right _ (List.mem_append_left _ hnil)
  · intro value r hr
    exact (hiff value).mpr ⟨':' :: r, hr, not_entryNumbersOK_colon r⟩
  · have h : ¬ (portValuesList.Set ⟨acc⟩ "65535".toList).2 ≠ none := by
      rw [hiff]
      decide
    exact not_not.mp h
  · rw [hiff]
    decide
  · intro f0 f1 P h0 h1 hP
    have key := Set_three_fields acc f0 f1 P h0 h1 hP
    have e : f0 ++ ":".toList ++ f1 ++ ":".toList ++ P = f0 ++ ':' :: (f1 ++ ':' :: P) := by
      simp [colon_toList, List.append_assoc]
    rw [e, key]

/-! ## Claims on the template loader -/

/-- C8. For a file `///F<newline>B` whose directive `F` has no newline and is a format with
exactly one `%s` slot, `F = pre%spost` with no other `%`, `parseTemplates` names the
output `pre ++ Name ++ post`, whatever the path of the file, and hands exactly `B` to
the template parser: the result is the template parsed from `B` under that name, or the
panic of `check` on the parser's error for `B`. -/
theorem parseTemplates_directive_overrides {E T : Type} (fs : GoString → Option GoString)
    (Parse : GoString → GoString → Except E T) (Name fp F B pre post : GoString)
    (hfile : fs fp = some ("///".toList ++ F ++ "\n".toList ++ B))
    (hF : '\n' ∉ F) (hfmt : F = pre ++ "%s".toList ++ post)
    (hpre : '%' ∉ pre) (hpost : '%' ∉ post) :
    parseTemplates fs Parse Name [fp] =
      match Parse fp B with
      | .ok t => .ok [⟨pre ++ Name ++ post, t⟩]
      | .error e => .panic (.parseError e) := by
  have hfile1 : fs fp = some ('/' :: '/' :: '/' :: (F ++ '\n' :: B)) := by
    rw [hfile]; simp [marker_toList, newline_toList]
  have hfmt1 : F = pre ++ '%' :: 's' :: post := by
    rw [hfmt]; simp [slot_toList]
  rw [parseTemplates_single, file_directive fs Parse Name fp F B pre post hfile1 hF hfmt1 hpre hpost]
  simp only [parseTemplates.parseBody, List.append_assoc]
  cases Parse fp B <;> rfl

/-- C8 on the example of the specification: first line `///custom-%s.yaml`, `Name = svc`;
the parser used returns the text it is given. -/
theorem parseTemplates_directive_overrides_witness :
    parseTemplates (fun _ => some ("///".toList ++ "custom-%s.yaml".toList ++ "\n".toList ++
        "kind: Service\n".toList))
      (fun _ body => (Except.ok body : Except Unit GoString)) "svc".toList
      ["templates/service.yaml.tmpl".toList] =
    .ok [⟨"custom-svc.yaml".toList, "kind: Service\n".toList⟩] :=
  parseTemplates_directive_overrides (fun _ => some ("///".toList ++ "custom-%s.yaml".toList ++
      "\n".toList ++ "kind: Service\n".toList))
    (fun _ body => (Except.ok body : Except Unit GoString)) "svc".toList
    "templates/service.yaml.tmpl".toList "custom-%s.yaml".toList "kind: Service\n".toList
    "custom-".toList ".yaml".toList rfl (by decide) rfl (by decide) (by decide)

/-- C9, refuted as stated: the one-line file `kind: Service`, without a final newline,
has a first line that does not begin with `///`, yet no body reaches the template
parser: whatever the parser, `parseTemplates` panics with the end-of-file error of the
first-line read. -/
theorem parseTemplates_plain_body_counterexample :
    HasPrefix "kind: Service".toList "///".toList = false ∧
    ∀ Parse : GoString → GoString → Except Unit GoString,
      parseTemplates (fun _ => some "kind: Service".toList) Parse "svc".toList
        ["service.yaml.tmpl".toList] = .panic .EOF := by
  refine ⟨by decide, ?_⟩
  intro Parse
  rfl

/-- C9, amended. For a file whose content has a first line ended by a newline,
`line<newline>rest`, with `line` not beginning with `///`, `parseTemplates` makes no file name
override (the name is the default computed from the path) and hands the entire content,
first line included, to the template parser. -/
theorem parseTemplates_plain_body_entire {E T : Type} (fs : GoString → Option GoString)
    (Parse : GoString → GoString → Except E T) (Name fp line rest : GoString)
    (hfile : fs fp = some (line ++ "\n".toList ++ rest))
    (hline : '\n' ∉ line) (hno : HasPrefix line "///".toList = false) :
    parseTemplates fs Parse Name [fp] =
      match Parse fp (line ++ "\n".toList ++ rest) with
      | .ok t => .ok [⟨Replace (Base fp) ".tmpl".toList [] 1, t⟩]
      | .error e => .panic (.parseError e) := by
  have e : line ++ "\n".toList ++ rest = line ++ '\n' :: rest := by
    simp [newline_toList]
  rw [e] at hfile ⊢
  rw [parseTemplates_single, file_plain fs Parse Name fp line rest hfile hline hno]
  simp only [parseTemplates.parseBody]
  cases Parse fp (line ++ '\n' :: rest) <;> rfl

/-- C9 amended, on a two-line file. -/
theorem parseTemplates_plain_body_entire_witness :
    parseTemplates (fun _ => some ("kind: Service".toList ++ "\n".toList ++ "spec:\n".toList))
      (fun _ body => (Except.ok body : Except Unit GoString)) "svc".toList
      ["templates/service.yaml.tmpl".toList] =
    .ok [⟨Replace (Base "templates/service.yaml.tmpl".toList) ".tmpl".toList [] 1,
      "kind: Service".toList ++ "\n".toList ++ "spec:\n".toList⟩] :=
  parseTemplates_plain_body_entire (fun _ => some ("kind: Service".toList ++ "\n".toList ++
      "spec:\n".toList))
    (fun _ body => (Except.ok body : Except Unit GoString)) "svc".toList
    "templates/service.yaml.tmpl".toList "kind: Service".toList "spec:\n".toList rfl
    (by decide) (by decide)

/-- C10, refuted as stated: the base name `ingress.tmpl.yaml.tmpl` ends with `.tmpl`
and the file has no directive, but the output name is `ingress.yaml.tmpl`: the first
`.tmpl` is removed and the trailing one is kept.  And for `deployment.yaml.tmpl` with the
one-line content `kind: Deployment`, without a final newline, no output name results at
all: the first-line read panics with the end-of-file error. -/
theorem parseTemplates_trailing_suffix_counterexample :
    (Base "templates/ingress.tmpl.yaml.tmpl".toList =
        "ingress.tmpl.yaml".toList ++ ".tmpl".toList ∧
      parseTemplates (fun _ => some "kind: Ingress\n".toList)
        (fun _ body => (Except.ok body : Except Unit GoString)) "svc".toList
        ["templates/ingress.tmpl.yaml.tmpl".toList] =
        .ok [⟨"ingress.yaml.tmpl".toList, "kind: Ingress\n".toList⟩] ∧
      "ingress.yaml.tmpl".toList ≠ "ingress.tmpl.yaml".toList) ∧
    (Base "templates/deployment.yaml.tmpl".toList =
        "deployment.yaml".toList ++ ".tmpl".toList ∧
      HasPrefix "kind: Deployment".toList "///".toList = false ∧
      parseTemplates (fun _ => some "kind: Deployment".toList)
        (fun _ body => (Except.ok body : Except Unit GoString)) "svc".toList
        ["templates/deployment.yaml.tmpl".toList] = .panic .EOF) := by
  refine ⟨⟨by decide, rfl, by decide⟩, ⟨by decide, by decide, rfl⟩⟩

/-- C10, amended. For a path whose base name is `a ++ ".tmpl" ++ b`, no occurrence of
`.tmpl` starting before this one, and whose file has a first line ended by a newline
and not beginning with `///`, the output file name is `a ++ b`: the base name with its
first `.tmpl` removed, once, and nothing else altered.  With `b` empty this is the base
name without its trailing suffix. -/
theorem parseTemplates_default_name {E T : Type} (fs : GoString → Option GoString)
    (Parse : GoString → GoString → Except E T) (Name fp line rest a b : GoString)
    (hfile : fs fp = some (line ++ "\n".toList ++ rest))
    (hline : '\n' ∉ line) (hno : HasPrefix line "///".toList = false)
    (hbase : Base fp = a ++ ".tmpl".toList ++ b)
    (hfirst : ∀ i, i < a.length → ¬ (".tmpl".toList <+: (Base fp).drop i)) :
    parseTemplates fs Parse Name [fp] =
      match Parse fp (line ++ "\n".toList ++ rest) with
      | .ok t => .ok [⟨a ++ b, t⟩]
      | .error e => .panic (.parseError e) := by
  have e : line ++ "\n".toList ++ rest = line ++ '\n' :: rest := by
    simp [newline_toList]
  rw [e] at hfile ⊢
  rw [List.append_assoc] at hbase
  rw [hbase] at hfirst
  have hrep : Replace (Base fp) ".tmpl".toList [] 1 = a ++ b := by
    rw [hbase]
    exact Replace_first ".tmpl".toList a b (by decide) hfirst
  rw [parseTemplates_single, file_plain fs Parse Name fp line rest hfile hline hno, hrep]
  simp only [parseTemplates.parseBody]
  cases Parse fp (line ++ '\n' :: rest) <;> rfl

/-- C10 amended, on the example of the specification: `deployment.yaml.tmpl` gives
`deployment.yaml`. -/
theorem parseTemplates_default_name_witness :
    parseTemplates (fun _ => some ("kind: Deployment".toList ++ "\n".toList ++ []))
      (fun _ body => (Except.ok body : Except Unit GoString)) "svc".toList
      ["templates/deployment.yaml.tmpl".toList] =
    .ok [⟨"deployment.yaml".toList ++ [], "kind: Deployment".toList ++ "\n".toList ++ []⟩] :=
  parseTemplates_default_name (fun _ => some ("kind: Deployment".toList ++ "\n".toList ++ []))
    (fun _ body => (Except.ok body : Except Unit GoString)) "svc".toList
    "templates/deployment.yaml.tmpl".toList "kind: Deployment".toList [] "deployment.yaml".toList []
    rfl (by decide) (by decide) (by decide) (by decide)

/-! ## Repeated flag values and the position of the first failure -/

theorem loop_append (xs ys : List GoString) :
    ∀ acc : List portValues,
      portValuesList.Set.loop (xs ++ ys) acc =
        match portValuesList.Set.loop xs acc with
        | (ports, none) => portValuesList.Set.loop ys ports
        | (ports, some err) => (ports, some err) := by
  induction xs with
  | nil => intro acc; rfl
  | cons x xs ih =>
    intro acc
    rw [List.cons_append]
    cases hx : portValuesList.Set.entry x with
    | error err => simp only [portValuesList.Set.loop, hx]
    | ok port =>
      simp only [portValuesList.Set.loop, hx]
      exact ih _

theorem entries_ok_mappings (es : List GoString) (h : ∀ e ∈ es, entryNumbersOK e) :
    ∃ ms, List.Forall₂ (fun e m => portValuesList.Set.entry e = .ok m) es ms := by
  induction es with
  | nil => exact ⟨[], List.Forall₂.nil⟩
  | cons e es ih =>
    obtain ⟨m, hm⟩ := (entry_ok_iff e).mpr (h e (List.mem_cons_self _ _))
    obtain ⟨ms, hms⟩ := ih (fun x hx => h x (List.mem_cons_of_mem _ hx))
    exact ⟨m :: ms, List.Forall₂.cons hm hms⟩

theorem eq_take_cons_drop {α : Type} (l : List α) :
    ∀ (k : Nat) (x : α), l[k]? = some x → l = l.take k ++ x :: l.drop (k + 1) := by
  induction l with
  | nil => intro k x h; simp at h
  | cons y ys ih =>
    intro k x h
    cases k with
    | zero =>
      simp only [List.getElem?_cons_zero, Option.some.injEq] at h
      simp [h]
    | succ k =>
      simp only [List.getElem?_cons_succ] at h
      have := ih k x h
      simp only [List.take_succ_cons, List.drop_succ_cons, List.cons_append]
      rw [← this]

/-! ## The loop of `parseTemplates` -/

theorem file_eof {E T : Type} (fs : GoString → Option GoString)
    (Parse : GoString → GoString → Except E T) (Name fp content : GoString)
    (hfile : fs fp = some content) (hnl : '\n' ∉ content) :
    parseTemplates.file fs Parse Name fp = .panic .EOF := by
  simp only [parseTemplates.file, hfile, ReadString_eof '\n' content hnl]
  rfl

theorem templates_loop_ok_prefix {E T : Type} (fs : GoString → Option GoString)
    (Parse : GoString → GoString → Except E T) (Name : GoString) (pre : List GoString) :
    ∀ (rest : List GoString) (files : List (templateFile T)),
      (∀ q ∈ pre, ∃ tf, parseTemplates.file fs Parse Name q = .ok tf) →
      ∃ tfs, parseTemplates.loop fs Parse Name (pre ++ rest) files =
        parseTemplates.loop fs Parse Name rest (files ++ tfs) := by
  induction pre with
  | nil => intro rest files _; exact ⟨[], by simp⟩
  | cons q qs ih =>
    intro rest files h
    obtain ⟨tf, htf⟩ := h q (List.mem_cons_self _ _)
    obtain ⟨tfs, htfs⟩ := ih rest (files ++ [tf]) (fun x hx => h x (List.mem_cons_of_mem _ hx))
    refine ⟨tf :: tfs, ?_⟩
    rw [List.cons_append]
    simp only [parseTemplates.loop, htf]
    rw [htfs, List.append_assoc, List.singleton_append]

theorem templates_loop_ok_inv {E T : Type} (fs : GoString → Option GoString)
    (Parse : GoString → GoString → Except E T) (Name : GoString) (fps : List GoString) :
    ∀ (files out : List (templateFile T)),
      parseTemplates.loop fs Parse Name fps files = .ok out →
      ∀ fp ∈ fps, ∃ tf, parseTemplates.file fs Parse Name fp = .ok tf := by
  induction fps with
  | nil => intro files out _ fp hfp; cases hfp
  | cons q qs ih =>
    intro files out h fp hfp
    cases hq : parseTemplates.file fs Parse Name q with
    | ok tf =>
      simp only [parseTemplates.loop, hq] at h
      rcases List.mem_cons.mp hfp with rfl | hfp
      · exact ⟨tf, hq⟩
      · exact ih _ out h fp hfp
    | panic p => simp only [parseTemplates.loop, hq] at h; cases h
    | unmodelled => simp only [parseTemplates.loop, hq] at h; cases h

/-! ## Claims on repeated flag values and failures -/

/-- C17. Repeating the ports flag is the same as joining its values with a comma:
`Set` on `a,b` from `acc` ends as `Set` on `a` from `acc` followed, when that succeeds,
by `Set` on `b`; when `Set` on `a` fails, `Set` on `a,b` fails with the same error and
the same final sequence.  So `flag.Parse` ends the same way on `-ports a,b` as on
`-ports a -ports b`, whatever the flags around them. -/
theorem Set_joined_values (acc : List portValues) (a b : GoString) :
    portValuesList.Set ⟨acc⟩ (a ++ ",".toList ++ b) =
      (match portValuesList.Set ⟨acc⟩ a with
      | (pvl, none) => portValuesList.Set pvl b
      | (pvl, some err) => (pvl, some err)) ∧
    ∀ (values : templateValues) (rest : List (FlagName × GoString)),
      flagParse ((FlagName.Ports, a ++ ",".toList ++ b) :: rest) ⟨values, ⟨acc⟩⟩ =
        flagParse ((FlagName.Ports, a) :: (FlagName.Ports, b) :: rest) ⟨values, ⟨acc⟩⟩ := by
  have e : a ++ ",".toList ++ b = a ++ ',' :: b := by
    simp [comma_toList]
  have key : portValuesList.Set ⟨acc⟩ (a ++ ",".toList ++ b) =
      (match portValuesList.Set ⟨acc⟩ a with
      | (pvl, none) => portValuesList.Set pvl b
      | (pvl, some err) => (pvl, some err)) := by
    rw [e, Set_eq_loop, Set_eq_loop, Split_append_sep ',' b a, loop_append]
    rcases portValuesList.Set.loop (Split a [',']) acc with ⟨ports, _ | err⟩
    · rfl
    · rfl
  refine ⟨key, ?_⟩
  intro values rest
  simp only [flagParse, FlagVars.set, key]
  rcases portValuesList.Set ⟨acc⟩ a with ⟨pvl, _ | err⟩
  · rcases portValuesList.Set pvl b with ⟨pvl1, _ | err1⟩ <;> rfl
  · rfl

/-- C18. When the `k`-th comma-separated entry (from 0) is the first invalid one, `Set`
fails with the error of that entry, and the accumulated sequence is the previous one
followed by the mappings of the `k` entries before it, in order: the failing entry and
the later ones add nothing, the earlier ones of the same call stay appended. -/
theorem Set_failure_at_entry (value : GoString) (acc : List portValues) (k : Nat)
    (bad : GoString) (hk : (Split value ",".toList)[k]? = some bad)
    (hbad : ¬ entryNumbersOK bad)
    (hfirst : ∀ e ∈ (Split value ",".toList).take k, entryNumbersOK e) :
    ∃ ms err, ms.length = k ∧
      List.Forall₂ (fun e m => portValuesList.Set.entry e = .ok m)
        ((Split value ",".toList).take k) ms ∧
      portValuesList.Set.entry bad = .error err ∧
      portValuesList.Set ⟨acc⟩ value = (⟨acc ++ ms⟩, some err) := by
  rw [comma_toList] at hk hfirst ⊢
  obtain ⟨ms, hms⟩ := entries_ok_mappings _ hfirst
  obtain ⟨err, herr⟩ := (entry_error_iff bad).mpr hbad
  have hsplit := eq_take_cons_drop (Split value [',']) k bad hk
  have hlt : k < (Split value [',']).length := by
    rcases List.getElem?_eq_some.mp hk with ⟨h, _⟩
    exact h
  refine ⟨ms, err, ?_, hms, herr, ?_⟩
  · rw [← hms.length_eq, List.length_take]
    omega
  · rw [Set_eq_loop]
    conv_lhs => rw [hsplit]
    rw [loop_error _ ms acc bad _ err hms herr]

/-- C18 on `80,443:8443,abc,22` after one accumulated mapping: the entry of index 2 is
the first invalid one, and two mappings are appended. -/
theorem Set_failure_at_entry_witness :
    portValuesList.Set ⟨[⟨53, 53, []⟩]⟩ "80,443:8443,abc,22".toList =
      (⟨[⟨53, 53, []⟩, ⟨80, 80, []⟩, ⟨443, 8443, "TCP".toList⟩]⟩,
        some (syntaxError fnParseUint "abc".toList)) ∧
    ∃ ms err, ms.length = 2 ∧
      List.Forall₂ (fun e m => portValuesList.Set.entry e = .ok m)
        ((Split "80,443:8443,abc,22".toList ",".toList).take 2) ms ∧
      portValuesList.Set.entry "abc".toList = .error err ∧
      portValuesList.Set ⟨[⟨53, 53, []⟩]⟩ "80,443:8443,abc,22".toList =
        (⟨[⟨53, 53, []⟩] ++ ms⟩, some err) :=
  ⟨by decide, Set_failure_at_entry "80,443:8443,abc,22".toList [⟨53, 53, []⟩] 2 "abc".toList
    (by decide) (by decide) (by decide)⟩

/-! ## Claims on files without a newline -/

/-- C19. On a template file whose content has no newline character, the loop body of
`parseTemplates` panics, through `check`, with the end-of-file error of the first-line
read; so does `parseTemplates` on that file alone, and on any list of paths that reaches
it; and a run of `parseTemplates` that returns descriptors has met no such file. -/
theorem parseTemplates_eof_without_newline {E T : Type} (fs : GoString → Option GoString)
    (Parse : GoString → GoString → Except E T) (Name fp content : GoString)
    (hfile : fs fp = some content) (hnl : '\n' ∉ content) :
    parseTemplates.file fs Parse Name fp = .panic .EOF ∧
    parseTemplates fs Parse Name [fp] = .panic .EOF ∧
    (∀ pre rest : List GoString,
      (∀ q ∈ pre, ∃ tf, parseTemplates.file fs Parse Name q = .ok tf) →
      parseTemplates fs Parse Name (pre ++ fp :: rest) = .panic .EOF) ∧
    (∀ (fps : List GoString) (files : List (templateFile T)),
      parseTemplates fs Parse Name fps = .ok files → fp ∉ fps) := by
  have hf := file_eof fs Parse Name fp content hfile hnl
  refine ⟨hf, ?_, ?_, ?_⟩
  · rw [parseTemplates_single, hf]
  · intro pre rest hpre
    obtain ⟨tfs, htfs⟩ := templates_loop_ok_prefix fs Parse Name pre (fp :: rest) [] hpre
    rw [parseTemplates, htfs]
    simp only [parseTemplates.loop, hf]
  · intro fps files hok hmem
    obtain ⟨tf, htf⟩ := templates_loop_ok_inv fs Parse Name fps [] files hok fp hmem
    rw [hf] at htf
    cases htf

/-- C19 on a one-line `///` directive without a final newline. -/
theorem parseTemplates_eof_without_newline_witness :
    parseTemplates.file (fun _ => some "///custom-%s.yaml".toList)
        (fun _ body => (Except.ok body : Except Unit GoString)) "svc".toList
        "service.yaml.tmpl".toList = .panic .EOF ∧
    parseTemplates (fun _ => some "///custom-%s.yaml".toList)
        (fun _ body => (Except.ok body : Except Unit GoString)) "svc".toList
        ["service.yaml.tmpl".toList] = .panic .EOF ∧
    (∀ pre rest : List GoString,
      (∀ q ∈ pre, ∃ tf, parseTemplates.file (fun _ => some "///custom-%s.yaml".toList)
        (fun _ body => (Except.ok body : Except Unit GoString)) "svc".toList q = .ok tf) →
      parseTemplates (fun _ => some "///custom-%s.yaml".toList)
        (fun _ body => (Except.ok body : Except Unit GoString)) "svc".toList
        (pre ++ "service.yaml.tmpl".toList :: rest) = .panic .EOF) ∧
    (∀ (fps : List GoString) (files : List (templateFile GoString)),
      parseTemplates (fun _ => some "///custom-%s.yaml".toList)
        (fun _ body => (Except.ok body : Except Unit GoString)) "svc".toList fps = .ok files →
      "service.yaml.tmpl".toList ∉ fps) :=
  parseTemplates_eof_without_newline (fun _ => some "///custom-%s.yaml".toList)
    (fun _ body => (Except.ok body : Except Unit GoString)) "svc".toList
    "service.yaml.tmpl".toList "///custom-%s.yaml".toList rfl (by decide)

/-! ## UTF-8: decoding undoes encoding -/

theorem and_mask6 (x : Nat) : x &&& 0x3F = x % 64 := by
  have := Nat.and_pow_two_sub_one_eq_mod x 6
  simpa using this

theorem and_mask5 (x : Nat) : x &&& 0x1F = x % 32 := by
  have := Nat.and_pow_two_sub_one_eq_mod x 5
  simpa using this

theorem and_mask4 (x : Nat) : x &&& 0x0F = x % 16 := by
  have := Nat.and_pow_two_sub_one_eq_mod x 4
  simpa using this

theorem and_mask3 (x : Nat) : x &&& 0x07 = x % 8 := by
  have := Nat.and_pow_two_sub_one_eq_mod x 3
  simpa using this

theorem or_low6 (a b : Nat) (h : b < 64) : (64 * a) ||| b = 64 * a + b := by
  have := Nat.mul_add_lt_is_or (i := 6) (by simpa using h) a
  simpa using this.symm

theorem or_low5 (a b : Nat) (h : b < 32) : (32 * a) ||| b = 32 * a + b := by
  have := Nat.mul_add_lt_is_or (i := 5) (by simpa using h) a
  simpa using this.symm

theorem or_low4 (a b : Nat) (h : b < 16) : (16 * a) ||| b = 16 * a + b := by
  have := Nat.mul_add_lt_is_or (i := 4) (by simpa using h) a
  simpa using this.symm

theorem or_low12 (a b : Nat) (h : b < 4096) : (4096 * a) ||| b = 4096 * a + b := by
  have h2 : b < 2 ^ 12 := by omega
  have := Nat.mul_add_lt_is_or h2 a
  have e : (2 : Nat) ^ 12 = 4096 := by norm_num
  rw [e] at this
  exact this.symm

theorem or_low18 (a b : Nat) (h : b < 262144) : (262144 * a) ||| b = 262144 * a + b := by
  have h2 : b < 2 ^ 18 := by omega
  have := Nat.mul_add_lt_is_or h2 a
  have e : (2 : Nat) ^ 18 = 262144 := by norm_num
  rw [e] at this
  exact this.symm

theorem or_tx (z : Nat) (h : z < 64) : 0x80 ||| z = 128 + z := by
  have := or_low6 2 z h
  simpa using this

theorem or_t2 (y : Nat) (h : y < 32) : 0xC0 ||| y = 192 + y := by
  have := or_low5 6 y h
  simpa using this

theorem or_t3 (y : Nat) (h : y < 16) : 0xE0 ||| y = 224 + y := by
  have := or_low4 14 y h
  simpa using this

theorem or_t4 (y : Nat) (h : y < 16) : 0xF0 ||| y = 240 + y := by
  have := or_low4 15 y h
  simpa using this

theorem first_two (k : Nat) (hk : 2 ≤ k ∧ k < 32) : first (192 + k) = 0x02 := by
  unfold first
  split_ifs <;> omega

theorem first_three (k : Nat) (hk : k < 16) :
    first (224 + k) = if k = 0 then 0x13 else if k = 13 then 0x23 else 0x03 := by
  interval_cases k <;> decide

theorem first_four (k : Nat) (hk : k < 5) :
    first (240 + k) = if k = 0 then 0x34 else if k = 4 then 0x44 else 0x04 := by
  interval_cases k <;> decide

theorem decode_one (b : Nat) (rest : ByteString) (h : b < 0x80) :
    DecodeRuneInString (b :: rest) = (b, 1) := by
  have hf : first b = 0xF0 := by
    unfold first
    rw [if_pos h]
  simp [DecodeRuneInString, hf]

theorem decode_two (k l : Nat) (rest : ByteString) (hk : 2 ≤ k ∧ k < 32) (hl : l < 64) :
    DecodeRuneInString ((192 + k) :: (128 + l) :: rest) = (64 * k + l, 2) := by
  have e0 : (192 + k) % 32 = k := by omega
  have e1 : (128 + l) % 64 = l := by omega
  have z1 : (2 &&& 7 : Nat) = 2 := by decide
  have z2 : (2 >>> 4 : Nat) = 0 := by decide
  have o := or_low6 k l hl
  simp only [DecodeRuneInString, first_two k hk, and_mask5, and_mask6, e0, e1,
    Nat.shiftLeft_eq, z1, z2, acceptRanges]
  simp only [List.length_cons, List.getD_cons_succ, List.getD_cons_zero, e1, Nat.mul_comm k, o]
  split_ifs <;> first | omega | rfl

theorem decode_three (k m l : Nat) (rest : ByteString) (hk : k < 16) (hm : m < 64)
    (hl : l < 64) (h0 : k = 0 → 32 ≤ m) (h13 : k = 13 → m < 32) :
    DecodeRuneInString ((224 + k) :: (128 + m) :: (128 + l) :: rest) =
      (4096 * k + 64 * m + l, 3) := by
  have e0 : (224 + k) % 16 = k := by omega
  have e1 : (128 + m) % 64 = m := by omega
  have e2 : (128 + l) % 64 = l := by omega
  have o1 : 4096 * k ||| 64 * m = 4096 * k + 64 * m := or_low12 k (64 * m) (by omega)
  have o2 : (4096 * k + 64 * m) ||| l = 4096 * k + 64 * m + l := by
    have := or_low6 (64 * k + m) l hl
    have e : 64 * (64 * k + m) = 4096 * k + 64 * m := by ring
    rw [e] at this
    exact this
  have z1 : (0x13 &&& 7 : Nat) = 3 := by decide
  have z2 : (0x13 >>> 4 : Nat) = 1 := by decide
  have z3 : (0x23 &&& 7 : Nat) = 3 := by decide
  have z4 : (0x23 >>> 4 : Nat) = 2 := by decide
  have z5 : (0x03 &&& 7 : Nat) = 3 := by decide
  have z6 : (0x03 >>> 4 : Nat) = 0 := by decide
  have a0 : acceptRanges 0 = (0x80, 0xBF) := rfl
  have a1 : acceptRanges 1 = (0xA0, 0xBF) := rfl
  have a2 : acceptRanges 2 = (0x80, 0x9F) := rfl
  have hx : first (224 + k) < 0xF0 ∧ first (224 + k) &&& 7 = 3 ∧
      (acceptRanges (first (224 + k) >>> 4)).1 ≤ 128 + m ∧
      128 + m ≤ (acceptRanges (first (224 + k) >>> 4)).2 := by
    rw [first_three k hk]
    by_cases c0 : k = 0
    · rw [if_pos c0, z1, z2]
      have := h0 c0
      rw [a1]
      refine ⟨by omega, rfl, ?_, ?_⟩ <;> simp only <;> omega
    by_cases c13 : k = 13
    · rw [if_neg c0, if_pos c13, z3, z4]
      have := h13 c13
      rw [a2]
      refine ⟨by omega, rfl, ?_, ?_⟩ <;> simp only <;> omega
    · rw [if_neg c0, if_neg c13, z5, z6, a0]
      refine ⟨by omega, rfl, ?_, ?_⟩ <;> simp only <;> omega
  obtain ⟨x1, x2, x3, x4⟩ := hx
  simp only [DecodeRuneInString, x2, and_mask4, and_mask6, e0, e1, e2, Nat.shiftLeft_eq,
    List.length_cons, List.getD_cons_succ, List.getD_cons_zero, Nat.mul_comm k, Nat.mul_comm m,
    o1, o2]
  split_ifs <;> first | omega | rfl

theorem decode_four (k m n l : Nat) (rest : ByteString) (hk : k < 5) (hm : m < 64)
    (hn : n < 64) (hl : l < 64) (h0 : k = 0 → 16 ≤ m) (h4 : k = 4 → m < 16) :
    DecodeRuneInString ((240 + k) :: (128 + m) :: (128 + n) :: (128 + l) :: rest) =
      (262144 * k + 4096 * m + 64 * n + l, 4) := by
  have e0 : (240 + k) % 8 = k := by omega
  have e1 : (128 + m) % 64 = m := by omega
  have e2 : (128 + n) % 64 = n := by omega
  have e3 : (128 + l) % 64 = l := by omega
  have o1 : 262144 * k ||| 4096 * m = 262144 * k + 4096 * m :=
    or_low18 k (4096 * m) (by omega)
  have o2 : (262144 * k + 4096 * m) ||| 64 * n = 262144 * k + 4096 * m + 64 * n := by
    have := or_low12 (64 * k + m) (64 * n) (by omega)
    have e : 4096 * (64 * k + m) = 262144 * k + 4096 * m := by ring
    rw [e] at this
    exact this
  have o3 : (262144 * k + 4096 * m + 64 * n) ||| l = 262144 * k + 4096 * m + 64 * n + l := by
    have := or_low6 (4096 * k + 64 * m + n) l hl
    have e : 64 * (4096 * k + 64 * m + n) = 262144 * k + 4096 * m + 64 * n := by ring
    rw [e] at this
    exact this
  have z1 : (0x34 &&& 7 : Nat) = 4 := by decide
  have z2 : (0x34 >>> 4 : Nat) = 3 := by decide
  have z3 : (0x44 &&& 7 : Nat) = 4 := by decide
  have z4 : (0x44 >>> 4 : Nat) = 4 := by decide
  have z5 : (0x04 &&& 7 : Nat) = 4 := by decide
  have z6 : (0x04 >>> 4 : Nat) = 0 := by decide
  have a0 : acceptRanges 0 = (0x80, 0xBF) := rfl
  have a3 : acceptRanges 3 = (0x90, 0xBF) := rfl
  have a4 : acceptRanges 4 = (0x80, 0x8F) := rfl
  have hx : first (240 + k) < 0xF0 ∧ first (240 + k) &&& 7 = 4 ∧
      (acceptRanges (first (240 + k) >>> 4)).1 ≤ 128 + m ∧
      128 + m ≤ (acceptRanges (first (240 + k) >>> 4)).2 := by
    rw [first_four k hk]
    by_cases c0 : k = 0
    · rw [if_pos c0, z1, z2, a3]
      have := h0 c0
      refine ⟨by omega, rfl, ?_, ?_⟩ <;> simp only <;> omega
    by_cases c4 : k = 4
    · rw [if_neg c0, if_pos c4, z3, z4, a4]
      have := h4 c4
      refine ⟨by omega, rfl, ?_, ?_⟩ <;> simp only <;> omega
    · rw [if_neg c0, if_neg c4, z5, z6, a0]
      refine ⟨by omega, rfl, ?_, ?_⟩ <;> simp only <;> omega
  obtain ⟨x1, x2, x3, x4⟩ := hx
  simp only [DecodeRuneInString, x2, and_mask3, and_mask6, e0, e1, e2, e3, Nat.shiftLeft_eq,
    List.length_cons, List.getD_cons_succ, List.getD_cons_zero, Nat.mul_comm k, Nat.mul_comm m,
    Nat.mul_comm n, o1, o2, o3]
  split_ifs <;> first | omega | rfl

theorem byte_and_mask6 (x : Nat) : x % 256 &&& 0x3F = x % 64 := by
  rw [and_mask6]
  omega

theorem encode_one (c : Nat) (h : c ≤ 0x7F) : encodeRune c = [c] := by
  unfold encodeRune
  rw [if_pos h, Nat.mod_eq_of_lt (by omega)]

theorem encode_two (c : Nat) (h : 0x80 ≤ c ∧ c ≤ 0x7FF) :
    encodeRune c = [192 + c / 64, 128 + c % 64] := by
  have e1 : (c / 64) % 256 = c / 64 := Nat.mod_eq_of_lt (by omega)
  unfold encodeRune
  rw [if_neg (by omega), if_pos h.2]
  simp only [Nat.shiftRight_eq_div_pow, byte_and_mask6]
  norm_num
  rw [e1, or_t2 _ (by omega), or_tx _ (by omega)]
  exact ⟨rfl, rfl⟩

theorem encodeRune3_eq (c : Nat) (h : c ≤ 0xFFFF) :
    encodeRune3 c = [224 + c / 4096, 128 + c / 64 % 64, 128 + c % 64] := by
  have e1 : (c / 4096) % 256 = c / 4096 := Nat.mod_eq_of_lt (by omega)
  unfold encodeRune3
  simp only [Nat.shiftRight_eq_div_pow, byte_and_mask6]
  norm_num
  rw [e1, or_t3 _ (by omega), or_tx _ (by omega), or_tx _ (by omega)]
  exact ⟨rfl, rfl, rfl⟩

theorem encode_three (c : Nat) (h : 0x800 ≤ c ∧ c ≤ 0xFFFF) (hs : ¬ (0xD800 ≤ c ∧ c ≤ 0xDFFF)) :
    encodeRune c = [224 + c / 4096, 128 + c / 64 % 64, 128 + c % 64] := by
  unfold encodeRune
  rw [if_neg (by omega), if_neg (by omega), if_neg (by omega), if_pos h.2,
    encodeRune3_eq c h.2]

theorem encode_four (c : Nat) (h : 0x10000 ≤ c ∧ c ≤ 0x10FFFF) :
    encodeRune c =
      [240 + c / 262144, 128 + c / 4096 % 64, 128 + c / 64 % 64, 128 + c % 64] := by
  have e1 : (c / 262144) % 256 = c / 262144 := Nat.mod_eq_of_lt (by omega)
  unfold encodeRune
  rw [if_neg (by omega), if_neg (by omega), if_neg (by omega), if_neg (by omega)]
  simp only [Nat.shiftRight_eq_div_pow, byte_and_mask6]
  norm_num
  rw [e1, or_t4 _ (by omega), or_tx _ (by omega), or_tx _ (by omega), or_tx _ (by omega)]
  exact ⟨rfl, rfl, rfl, rfl⟩

/-- Decoding undoes encoding: a string that starts with the encoding of a Unicode scalar
value `c` decodes to `c`, with the width of that encoding. -/
theorem decode_encode (c : Nat) (rest : ByteString)
    (hc : c < 0xD800 ∨ (0xDFFF < c ∧ c < 0x110000)) :
    DecodeRuneInString (encodeRune c ++ rest) = (c, (encodeRune c).length) := by
  by_cases h1 : c ≤ 0x7F
  · rw [encode_one c h1]
    exact decode_one c rest (by omega)
  by_cases h2 : c ≤ 0x7FF
  · rw [encode_two c ⟨by omega, h2⟩]
    have := decode_two (c / 64) (c % 64) rest (by omega) (by omega)
    simp only [List.cons_append, List.nil_append, List.length_cons, List.length_nil]
    rw [this]
    congr 1
    omega
  by_cases h3 : c ≤ 0xFFFF
  · rw [encode_three c ⟨by omega, h3⟩ (by omega)]
    have := decode_three (c / 4096) (c / 64 % 64) (c % 64) rest (by omega) (by omega)
      (by omega) (by omega) (by omega)
    simp only [List.cons_append, List.nil_append, List.length_cons, List.length_nil]
    rw [this]
    congr 1
    omega
  · rw [encode_four c ⟨by omega, by omega⟩]
    have := decode_four (c / 262144) (c / 4096 % 64) (c / 64 % 64) (c % 64) rest (by omega)
      (by omega) (by omega) (by omega) (by omega) (by omega)
    simp only [List.cons_append, List.nil_append, List.length_cons, List.length_nil]
    rw [this]
    congr 1
    omega

theorem char_scalar (c : Char) :
    c.toNat < 0xD800 ∨ (0xDFFF < c.toNat ∧ c.toNat < 0x110000) := c.valid

theorem encodeRune_ne_nil (c : Nat) : encodeRune c ≠ [] := by
  unfold encodeRune encodeRune3
  split_ifs <;> simp

theorem runesLoop_nil (fuel : Nat) : runesLoop fuel [] = [] := by
  cases fuel <;> rfl

theorem stringToRunes_encode_append (c : Nat) (rest : ByteString)
    (hc : c < 0xD800 ∨ (0xDFFF < c ∧ c < 0x110000)) :
    stringToRunes (encodeRune c ++ rest) =
      c :: runesLoop ((encodeRune c).length - 1 + rest.length) rest := by
  have hd := decode_encode c rest hc
  obtain ⟨b, bs, hb⟩ := List.exists_cons_of_ne_nil (encodeRune_ne_nil c)
  rw [hb] at hd ⊢
  have hlen : (b :: bs ++ rest).length = (bs.length + rest.length) + 1 := by
    simp only [List.cons_append, List.length_cons, List.length_append]
  rw [stringToRunes, hlen]
  simp only [List.cons_append] at hd ⊢
  simp only [runesLoop, hd, List.length_cons, List.drop_succ_cons, Nat.add_sub_cancel]
  rw [List.drop_left]

theorem firstRune_encode_append (c : Nat) (rest : ByteString)
    (hc : c < 0xD800 ∨ (0xDFFF < c ∧ c < 0x110000)) :
    firstRune (encodeRune c ++ rest) = .ok (encodeRune c) := by
  simp only [firstRune, stringToRunes_encode_append c rest hc]

theorem stringToRunes_encode (c : Nat) (hc : c < 0xD800 ∨ (0xDFFF < c ∧ c < 0x110000)) :
    stringToRunes (encodeRune c) = [c] := by
  have := stringToRunes_encode_append c [] hc
  rw [List.append_nil, runesLoop_nil] at this
  exact this

/-! ## The cluster pieces and the flags of `main` -/

theorem underscore_toList : "_".toList = ['_'] := rfl

/-- Go `strings.SplitN(s, sep, 2)` at a one-character separator makes at most one cut. -/
theorem SplitN_two (c : Char) (s : GoString) : SplitN s [c] 2 = splitLoop [c] 1 s := by
  have h2 : ((2 : Int) = 0) = False := by decide
  have h2n : ((2 : Int) < 0) = False := by decide
  simp only [SplitN, genSplit, h2, h2n, if_false]
  simp only [List.cons_ne_nil, if_false]
  have ht : (2 : Int).toNat = 2 := rfl
  rw [ht]
  by_cases hl : 2 > s.length + 1
  · rw [if_pos hl, Nat.add_sub_cancel]
    have hcl : s.count c ≤ s.length := List.count_le_length _ _
    rw [splitLoop_stable c s.length s hcl, splitLoop_stable c 1 s (by omega)]
  · rw [if_neg hl]

theorem clusterInfo_without_underscore (vars : FlagVars) (h : '_' ∉ vars.values.Cluster) :
    main.clusterInfo vars = .error (.indexOutOfRange 1 1) := by
  simp only [main.clusterInfo, underscore_toList, SplitN_two,
    splitLoop_of_not_mem '_' 1 _ h]

theorem clusterInfo_with_underscore (vars : FlagVars) (a z : GoString)
    (h : vars.values.Cluster = a ++ '_' :: z) (ha : '_' ∉ a) :
    main.clusterInfo vars =
      .ok { vars.values with Ports := vars.ports.ports, ClusterProvider := a, ClusterZone := z } := by
  simp only [main.clusterInfo, underscore_toList, SplitN_two, h,
    splitLoop_succ_append '_' 0 a z ha, splitLoop_zero]

theorem flagParse_keeps_cluster (flags : List (FlagName × GoString)) :
    ∀ vars vars1 : FlagVars, (∀ f ∈ flags, f.1 ≠ FlagName.Cluster) →
      flagParse flags vars = .ok vars1 → vars1.values.Cluster = vars.values.Cluster := by
  induction flags with
  | nil =>
    intro vars vars1 _ h
    simp only [flagParse, Except.ok.injEq] at h
    rw [h]
  | cons f fs ih =>
    intro vars vars1 hno h
    obtain ⟨name, value⟩ := f
    have hname : name ≠ FlagName.Cluster := hno (name, value) (List.mem_cons_self _ _)
    have hrest : ∀ g ∈ fs, g.1 ≠ FlagName.Cluster := fun g hg => hno g (List.mem_cons_of_mem _ hg)
    cases hs : vars.set name value with
    | error err => simp only [flagParse, hs] at h; cases h
    | ok vars2 =>
      simp only [flagParse, hs] at h
      rw [ih vars2 vars1 hrest h]
      cases name with
      | Cluster => exact absurd rfl hname
      | Namespace => simp only [FlagVars.set, Except.ok.injEq] at hs; rw [← hs]
      | Name => simp only [FlagVars.set, Except.ok.injEq] at hs; rw [← hs]
      | Img => simp only [FlagVars.set, Except.ok.injEq] at hs; rw [← hs]
      | Ports =>
        simp only [FlagVars.set] at hs
        rcases hp : vars.ports.Set value with ⟨pvl, _ | err⟩
        · rw [hp] at hs
          simp only [Except.ok.injEq] at hs
          rw [← hs]
        · rw [hp] at hs
          cases hs

theorem requiredArg_without_underscore : '_' ∉ requiredArg := by decide

/-- The half of the required-argument check that works: with a cluster that contains
`_` and no namespace given, the run ends in `log.Fatal("Missing required parameter")`,
whatever the files and the positional arguments. -/
theorem main_without_namespace {E T : Type} (fs : GoString → Option GoString)
    (Parse : GoString → GoString → Except E T) (cl : CommandLine) (vars : FlagVars)
    (hp : flagParse cl.flags FlagVars.defaults = .ok vars)
    (h : '_' ∈ vars.values.Cluster) (hns : vars.values.Namespace = requiredArg) :
    main fs Parse cl = .fatal "Missing required parameter".toList := by
  obtain ⟨a, z, hc, ha⟩ := List.eq_append_cons_of_mem h
  simp only [main, hp, clusterInfo_with_underscore vars a z hc ha, main.prepare, hns,
    or_true, if_true]

/-! ## Claims on the template function and on `main` -/

/-- C11, the code at the empty string: `[]rune("")` is empty and the index expression
`[0]` panics, so `firstRune` returns no string at all. -/
theorem firstRune_empty_panics : firstRune [] = .error (.indexOutOfRange 0 0) := rfl

/-- C12, refuted as stated: on the one-byte string `\xff`, which is not valid UTF-8,
`firstRune` returns the encoding of U+FFFD, one character that is not a beginning of
the string. -/
theorem firstRune_prefix_counterexample :
    firstRune [0xFF] = .ok [0xEF, 0xBF, 0xBD] ∧
    stringToRunes [0xEF, 0xBF, 0xBD] = [0xFFFD] ∧
    ¬ ([0xEF, 0xBF, 0xBD] <+: [0xFF]) := by
  refine ⟨rfl, by decide, by decide⟩

/-- C12, amended. On every string that starts with the UTF-8 encoding of a Unicode
scalar value `c`, in particular on every non-empty valid UTF-8 text, `firstRune` returns
the encoding of `c`: a string of exactly one character, `c`, that is a beginning of the
argument; it is the whole encoding of `c`, not the first byte, as on `é€`. -/
theorem firstRune_first_scalar (c : Char) :
    (∀ rest : ByteString,
      firstRune (encodeRune c.toNat ++ rest) = .ok (encodeRune c.toNat) ∧
      encodeRune c.toNat <+: encodeRune c.toNat ++ rest) ∧
    stringToRunes (encodeRune c.toNat) = [c.toNat] ∧
    (∀ cs : GoString, firstRune (utf8Bytes (c :: cs)) = .ok (utf8Bytes [c])) ∧
    firstRune (utf8Bytes "é€".toList) = .ok [0xC3, 0xA9] := by
  refine ⟨fun rest => ⟨firstRune_encode_append _ rest (char_scalar c), List.prefix_append _ _⟩,
    stringToRunes_encode _ (char_scalar c), ?_, rfl⟩
  intro cs
  simp only [utf8Bytes, List.flatMap_cons, List.flatMap_nil, List.append_nil]
  exact firstRune_encode_append _ _ (char_scalar c)

/-- C13, the code on every command line without the `cluster` flag: the run never ends
with `Missing required parameter`.  Either package `flag` rejects a `ports` value, or the
cluster keeps its default, which has no `_`, and the index expression `clusterInfo[1]`
panics before the check of the required arguments is reached. -/
theorem main_without_cluster {E T : Type} (fs : GoString → Option GoString)
    (Parse : GoString → GoString → Except E T) (cl : CommandLine)
    (h : ∀ f ∈ cl.flags, f.1 ≠ FlagName.Cluster) :
    (∃ err, main fs Parse cl = .flagError err) ∨
      main fs Parse cl = .runtimePanic (.indexOutOfRange 1 1) := by
  cases hp : flagParse cl.flags FlagVars.defaults with
  | error err =>
    left
    exact ⟨err, by simp only [main, hp]⟩
  | ok vars =>
    right
    have hc : vars.values.Cluster = requiredArg :=
      flagParse_keeps_cluster cl.flags FlagVars.defaults vars h hp
    have hu : '_' ∉ vars.values.Cluster := by
      rw [hc]
      exact requiredArg_without_underscore
    simp only [main, hp, clusterInfo_without_underscore vars hu]

/-- C13 at the failing input `--namespace default --name svc service.yaml.tmpl`. -/
theorem main_without_cluster_witness :
    main (fun _ => some "kind: Service\n".toList)
        (fun _ body => (Except.ok body : Except Unit GoString))
        ⟨[(.Namespace, "default".toList), (.Name, "svc".toList)], ["service.yaml.tmpl".toList]⟩ =
      .runtimePanic (.indexOutOfRange 1 1) ∧
    ((∃ err, main (fun _ => some "kind: Service\n".toList)
        (fun _ body => (Except.ok body : Except Unit GoString))
        ⟨[(.Namespace, "default".toList), (.Name, "svc".toList)], ["service.yaml.tmpl".toList]⟩ =
          .flagError err) ∨
      main (fun _ => some "kind: Service\n".toList)
        (fun _ body => (Except.ok body : Except Unit GoString))
        ⟨[(.Namespace, "default".toList), (.Name, "svc".toList)], ["service.yaml.tmpl".toList]⟩ =
          .runtimePanic (.indexOutOfRange 1 1)) :=
  ⟨rfl, main_without_cluster _ _ _ (by decide)⟩

/-- C14, the code at `--cluster gke_europe --namespace default service.yaml.tmpl`, the
`name` flag absent: no check stops the run, the template is parsed, and the output
directory is built from the placeholder name. -/
theorem main_without_name_generates :
    main (fun _ => some "kind: Service\n".toList)
        (fun _ body => (Except.ok body : Except Unit GoString))
        ⟨[(.Cluster, "gke_europe".toList), (.Namespace, "default".toList)],
          ["service.yaml.tmpl".toList]⟩ =
      .generate
        ⟨"gke_europe".toList, "gke".toList, "europe".toList, "default".toList, [],
          requiredArg, []⟩
        "gen/gke_europe/default/\x7bREQUIRED\x7d/".toList
        [⟨"service.yaml".toList, "kind: Service\n".toList⟩] := rfl

/-- C15, the code on every cluster value without `_`: once the flags are parsed, the
index expression `clusterInfo[1]` panics, `strings.SplitN` having returned one piece;
the run raises no error of its own for a malformed cluster. -/
theorem main_cluster_without_underscore {E T : Type} (fs : GoString → Option GoString)
    (Parse : GoString → GoString → Except E T) (cl : CommandLine) (vars : FlagVars)
    (hp : flagParse cl.flags FlagVars.defaults = .ok vars)
    (h : '_' ∉ vars.values.Cluster) :
    main fs Parse cl = .runtimePanic (.indexOutOfRange 1 1) := by
  simp only [main, hp, clusterInfo_without_underscore vars h]

/-- C15 at the failing input `--cluster gke --namespace default --name svc
service.yaml.tmpl`. -/
theorem main_cluster_without_underscore_witness :
    main (fun _ => some "kind: Service\n".toList)
        (fun _ body => (Except.ok body : Except Unit GoString))
        ⟨[(.Cluster, "gke".toList), (.Namespace, "default".toList), (.Name, "svc".toList)],
          ["service.yaml.tmpl".toList]⟩ =
      .runtimePanic (.indexOutOfRange 1 1) :=
  main_cluster_without_underscore _ _
    ⟨[(.Cluster, "gke".toList), (.Namespace, "default".toList), (.Name, "svc".toList)],
      ["service.yaml.tmpl".toList]⟩
    ⟨⟨"gke".toList, [], [], "default".toList, [], "svc".toList, []⟩, ⟨[]⟩⟩ rfl (by decide)

/-- C16. For every cluster value that contains `_`, `main` cuts it at the first `_`:
`ClusterProvider` is the part before it and contains no `_`, `ClusterZone` is all that
follows it, and `ClusterProvider ++ "_" ++ ClusterZone` is the cluster value; the run
goes on with these values. -/
theorem main_cluster_split_at_first_underscore {E T : Type} (fs : GoString → Option GoString)
    (Parse : GoString → GoString → Except E T) (vars : FlagVars)
    (h : '_' ∈ vars.values.Cluster) :
    ∃ values : templateValues,
      main.clusterInfo vars = .ok values ∧
      values.Cluster = vars.values.Cluster ∧
      '_' ∉ values.ClusterProvider ∧
      values.ClusterProvider ++ "_".toList ++ values.ClusterZone = values.Cluster ∧
      ∀ cl : CommandLine, flagParse cl.flags FlagVars.defaults = .ok vars →
        main fs Parse cl = main.prepare fs Parse values cl.args := by
  obtain ⟨a, z, hc, ha⟩ := List.eq_append_cons_of_mem h
  have hci := clusterInfo_with_underscore vars a z hc ha
  refine ⟨_, hci, rfl, ha, ?_, ?_⟩
  · simp only [underscore_toList, hc, List.append_assoc, List.singleton_append]
  · intro cl hp
    simp only [main, hp, hci]

/-- C16 on the cluster `gke_europe_west1`: provider `gke`, zone `europe_west1`. -/
theorem main_cluster_split_at_first_underscore_witness :
    main.clusterInfo
        ⟨⟨"gke_europe_west1".toList, [], [], "default".toList, [], "svc".toList, []⟩, ⟨[]⟩⟩ =
      .ok ⟨"gke_europe_west1".toList, "gke".toList, "europe_west1".toList, "default".toList, [],
        "svc".toList, []⟩ ∧
    ∃ values : templateValues,
      main.clusterInfo
        ⟨⟨"gke_europe_west1".toList, [], [], "default".toList, [], "svc".toList, []⟩, ⟨[]⟩⟩ =
        .ok values ∧
      values.Cluster = "gke_europe_west1".toList ∧
      '_' ∉ values.ClusterProvider ∧
      values.ClusterProvider ++ "_".toList ++ values.ClusterZone = values.Cluster ∧
      ∀ cl : CommandLine, flagParse cl.flags FlagVars.defaults =
          .ok ⟨⟨"gke_europe_west1".toList, [], [], "default".toList, [], "svc".toList, []⟩, ⟨[]⟩⟩ →
        main (fun _ => some "kind: Service\n".toList)
            (fun _ body => (Except.ok body : Except Unit GoString)) cl =
          main.prepare (fun _ => some "kind: Service\n".toList)
            (fun _ body => (Except.ok body : Except Unit GoString)) values cl.args :=
  ⟨rfl, main_cluster_split_at_first_underscore _ _ _ (by decide)⟩

end K8sDefgen
